import Mathlib

/-!
# Verification of the TOTALVI model driver (`scvi/model/_totalvi.py`)

A shallow embedding of the posterior-estimation routines, the empirical
protein-background prior estimator, the differential-expression driver and the
posterior-predictive sampler of the `TOTALVI` class, together with theorems
settling the specification claims about them.

Conventions of the embedding:

* Dense tensors are nested lists of real numbers: a 2-D tensor (cells ×
  features) is `Mat`, a 3-D tensor is `T3` (outermost axis first).
* External numeric primitives that the source consumes as black boxes
  (the torch module's `forward`/`inference`/`sample` outputs, Bernoulli and
  `np.random.choice` draws, the sklearn Gaussian-mixture fit, and the
  numpy/scipy correlation kernels) are passed in as explicit function
  arguments; the embedded code applies them exactly where the source does.
* Fallible paths (`raise ValueError`, the pandas failure on 3-D input)
  return `Except String`.
-/

namespace TotalVI

/-- A 2-D tensor (rows × columns), row-major. -/
abbrev Mat : Type := List (List ℝ)

/-- A 3-D tensor as a nested list, outermost axis first. -/
abbrev T3 : Type := List Mat

noncomputable section

/-- `1 / (1 + torch.exp(-x))`, the mixing probability computed at
`_totalvi.py:537` (and `torch.sigmoid` at line 682). -/
def sigmoid (x : ℝ) : ℝ := 1 / (1 + Real.exp (-x))

/-- Elementwise map over a 2-D tensor. -/
def ewMap (f : ℝ → ℝ) (m : Mat) : Mat := m.map (fun r => r.map f)

/-- Elementwise combination of two same-shaped 2-D tensors. -/
def ewZip (f : ℝ → ℝ → ℝ) (a b : Mat) : Mat := List.zipWith (List.zipWith f) a b

/-- Elementwise tensor addition (torch `+=` on same-shaped tensors). -/
def matAdd (a b : Mat) : Mat := ewZip (· + ·) a b

/-- Elementwise product of two same-shaped tensors (torch `*`). -/
def matMul (a b : Mat) : Mat := ewZip (· * ·) a b

/-- `torch.zeros_like` on a 2-D tensor. -/
def matZerosLike (m : Mat) : Mat := ewMap (fun _ => 0) m

/-- A feature-axis index: either `slice(None)` (`.all`) or a boolean mask,
as built from `gene_list` / `protein_list` at `_totalvi.py:482-491`. -/
inductive FeatMask
  | all : FeatMask
  | boolMask (m : List Bool) : FeatMask

/-- Apply a feature mask to one row (numpy boolean indexing on the last axis). -/
def maskRow (mask : FeatMask) (r : List ℝ) : List ℝ :=
  match mask with
  | .all => r
  | .boolMask m => ((r.zip m).filter (fun p => p.2)).map (fun p => p.1)

/-- `t[..., mask]` on a 2-D tensor. -/
def applyMask (mask : FeatMask) (m : Mat) : Mat := m.map (maskRow mask)

/-- Apply a feature mask to a list of feature names
(`var_names[gene_mask]`, `protein_names[protein_mask]`). -/
def maskNames (mask : FeatMask) (names : List String) : List String :=
  match mask with
  | .all => names
  | .boolMask m => ((names.zip m).filter (fun p => p.2)).map (fun p => p.1)

/-- `[True if p in feat_list else False for p in all_names]`
(`_totalvi.py:486,491`); `None` stands for `slice(None)`. -/
def maskFromList (allNames : List String) (featList : Option (List String)) : FeatMask :=
  match featList with
  | none => .all
  | some l => .boolMask (allNames.map (fun p => decide (p ∈ l)))

/-- `torch.nn.functional.normalize(v, p=1, dim=-1)`:
`v / max(‖v‖₁, 1e-12)` (`_totalvi.py:545`). -/
def l1Normalize (v : List ℝ) : List ℝ :=
  v.map (fun x => x / max ((v.map (fun y => |y|)).sum) (1e-12))

/-- Entry access into a 2-D tensor (with defaults, used only under bounds). -/
def entry (m : Mat) (i j : ℕ) : ℝ := (m.getD i []).getD j 0

/-- Sum of one row of a 2-D tensor. -/
def rowSum (m : Mat) (i : ℕ) : ℝ := (m.getD i []).sum

/-- `m` is a rectangular `r × c` matrix. -/
def isRect (m : Mat) (r c : ℕ) : Prop := m.length = r ∧ ∀ row ∈ m, row.length = c

/-- `t` is a rectangular `a × b × c` 3-D tensor. -/
def isRect3 (t : T3) (a b c : ℕ) : Prop := t.length = a ∧ ∀ m ∈ t, isRect m b c

/-- A batch/panel category value: a number or a string
(the values a user may put in a `transform_batch` list). -/
inductive PyCat
  | cnum (n : ℤ) : PyCat
  | cstr (s : String) : PyCat
deriving DecidableEq

/-- The Python value accepted for the `transform_batch` argument:
`None`, a number, a string category, or a list of categories
(entries of a list may themselves be `None`). -/
inductive PyTB
  | pynone : PyTB
  | pynum (n : ℤ) : PyTB
  | pystr (s : String) : PyTB
  | pylist (l : List (Option PyCat)) : PyTB
deriving DecidableEq

/-- Map one category to its integer batch code: `None` is kept (observed
batch is used), a valid category becomes its index in the registered
categorical mapping, and an unknown category raises `ValueError`. -/
def catCode (mapping : List PyCat) (c : Option PyCat) : Except String (Option ℕ) :=
  match c with
  | none => .ok none
  | some cat =>
    if cat ∈ mapping then .ok (some (mapping.indexOf cat)) else .error "invalid category"

/-- Modelled from the spec: `_get_batch_code_from_category` lives in
`scvi.model._utils`, outside the given source file; per the spec, a single
transform-batch value is normalized to a one-element list before the shared
multi-condition iteration.  A bare string passes the `Iterable` test at the
call site (so it reaches this helper unwrapped) but the helper wraps strings
itself; every category in the resulting list is then mapped to its integer
batch code, with `None` standing for the observed batch. -/
def getBatchCodeFromCategory (mapping : List PyCat) : PyTB → Except String (List (Option ℕ))
  | .pynone => ([none] : List (Option PyCat)).mapM (catCode mapping)
  | .pynum n => ([some (PyCat.cnum n)] : List (Option PyCat)).mapM (catCode mapping)
  | .pystr s => ([some (PyCat.cstr s)] : List (Option PyCat)).mapM (catCode mapping)
  | .pylist l => l.mapM (catCode mapping)

/-- `if not isinstance(transform_batch, IterableClass): transform_batch =
[transform_batch]` (`_totalvi.py:505-506`, also lines 664-665 and 1083-1084).
`None` and numbers are not `Iterable` and get wrapped; strings and lists are
`Iterable` and pass through unchanged. -/
def wrapTransformBatch : PyTB → PyTB
  | .pynone => .pylist [none]
  | .pynum n => .pylist [some (.cnum n)]
  | .pystr s => .pystr s
  | .pylist l => .pylist l

/-- Lines 505-508: normalize the `transform_batch` argument and resolve it to
a list of batch codes. -/
def resolveTransformBatch (mapping : List PyCat) (tb : PyTB) :
    Except String (List (Option ℕ)) :=
  getBatchCodeFromCategory mapping (wrapTransformBatch tb)

/-- `transform_batch` arguments that are not lists (`None`, number, string). -/
def isListArg : PyTB → Bool
  | .pylist _ => true
  | _ => false

/-- The one-element-list form of a non-list `transform_batch` value. -/
def singleToCat : PyTB → Option PyCat
  | .pynone => none
  | .pynum n => some (.cnum n)
  | .pystr s => some (.cstr s)
  | .pylist _ => none

/-- The protein-likelihood parameters `py_` produced by `module.forward`:
mixing logits, foreground rate, background rate (each cells × proteins). -/
structure PyOut where
  mixing : Mat
  rateFore : Mat
  rateBack : Mat

/-- The gene-likelihood parameters `px_` produced by `module.forward`:
rate and (library-normalized) scale (each cells × genes). -/
structure PxOut where
  rate : Mat
  scale : Mat

/-- One `module.forward` generative output. -/
structure GenOut where
  px : PxOut
  py : PyOut

/-- One minibatch yielded by the data loader, bundled with the external
module's behaviour on it: `gen b s` is the (2-D, per-posterior-sample slice
`s`) generative output of `self.module.forward(tensors,
generative_kwargs={"transform_batch": b}, ...)`, and `bern b s` is the
corresponding Bernoulli draw used when `sample_protein_mixing=True`
(`_totalvi.py:539`). -/
structure MBData where
  x : Mat
  y : Mat
  gen : Option ℕ → ℕ → GenOut
  bern : Option ℕ → ℕ → Mat

/-- The option flags of `get_normalized_expression`. -/
structure NormExprOpts where
  libSizeLatent : Bool
  nSamples : ℕ
  sampleProteinMixing : Bool
  scaleProtein : Bool
  includeProteinBackground : Bool

/-- One transform-batch contribution to `px_scale` (lines 530-533):
the rate when `library_size == "latent"`, the scale otherwise, gene-masked. -/
def geneContrib (libLatent : Bool) (g : GenOut) (gmask : FeatMask) : Mat :=
  if libLatent then applyMask gmask g.px.rate else applyMask gmask g.px.scale

/-- The `protein_mixing` tensor (lines 537-539): the sigmoid of the mixing
logits, replaced by the Bernoulli draw when `sample_protein_mixing=True`. -/
def proteinMixing (opts : NormExprOpts) (g : GenOut) (bern : Mat) : Mat :=
  if opts.sampleProteinMixing then bern else ewMap sigmoid g.py.mixing

/-- The protein value of one transform-batch condition before the optional
renormalization (lines 540-542): foreground rate weighted by
`(1 - protein_mixing)`, plus the background rate weighted by
`protein_mixing` when requested. -/
def proteinValRaw (opts : NormExprOpts) (g : GenOut) (bern : Mat) : Mat :=
  if opts.includeProteinBackground then
    matAdd (ewZip (fun f m => f * (1 - m)) g.py.rateFore (proteinMixing opts g bern))
      (matMul g.py.rateBack (proteinMixing opts g bern))
  else ewZip (fun f m => f * (1 - m)) g.py.rateFore (proteinMixing opts g bern)

/-- One transform-batch contribution to `py_scale` (lines 535-547):
the raw protein value, L1-renormalized across proteins when
`scale_protein=True`, then protein-masked. -/
def proteinContrib (opts : NormExprOpts) (g : GenOut) (bern : Mat)
    (pmask : FeatMask) : Mat :=
  let pv := proteinValRaw opts g bern
  let pv := if opts.scaleProtein then pv.map l1Normalize else pv
  applyMask pmask pv

/-- The per-minibatch gene tensor of sample slice `s`: zeros, accumulated
over the transform-batch codes, divided by the number of conditions
(lines 516, 530-533, 548). -/
def mbGeneScale (libLatent : Bool) (gmask : FeatMask) (codes : List (Option ℕ))
    (mb : MBData) (s : ℕ) : Mat :=
  ewMap (fun v => v / (codes.length : ℝ))
    (codes.foldl (fun acc b => matAdd acc (geneContrib libLatent (mb.gen b s) gmask))
      (applyMask gmask (matZerosLike mb.x)))

/-- The per-minibatch protein tensor of sample slice `s` (lines 517,
535-547, 549). -/
def mbProteinScale (opts : NormExprOpts) (pmask : FeatMask) (codes : List (Option ℕ))
    (mb : MBData) (s : ℕ) : Mat :=
  ewMap (fun v => v / (codes.length : ℝ))
    (codes.foldl
      (fun acc b => matAdd acc (proteinContrib opts (mb.gen b s) (mb.bern b s) pmask))
      (applyMask pmask (matZerosLike mb.y)))

/-- `torch.cat(list, dim=0)` on 2-D tensors. -/
def catDim0 (l : List Mat) : Mat := l.flatten

/-- `torch.cat(list, dim=1)` on sample-major 3-D tensors of `n` samples
(line 555): slice `s` of the result is the row-wise concatenation of the
slices `s` of the parts. -/
def catDim1 (n : ℕ) (l : List T3) : T3 :=
  (List.range n).map (fun s => (l.map (fun t => t.getD s [])).flatten)

/-- `permute(1, 2, 0)` / `np.transpose(x, (1, 2, 0))` on a 3-D tensor:
`result[i][j][k] = x[k][i][j]` (lines 558-559 and 938-939). -/
def transpose120 (t : T3) : T3 :=
  (List.range ((t.getD 0 []).length)).map (fun i =>
    (List.range (((t.getD 0 []).getD i []).length)).map (fun j =>
      t.map (fun m => (m.getD i []).getD j 0)))

/-- `torch.mean(x, dim=-1)` on a 3-D tensor (lines 565-566). -/
def meanLastDim (t : T3) : Mat :=
  t.map (fun m => m.map (fun v => v.sum / (v.length : ℝ)))

/-- A raw numpy result: 2-D or 3-D. -/
inductive NDResult
  | arr2 (m : Mat) : NDResult
  | arr3 (t : T3) : NDResult

/-- A returned value: a labeled `pd.DataFrame` or a raw array. -/
inductive RetResult
  | df (rows cols : List String) (m : Mat) : RetResult
  | raw (r : NDResult) : RetResult

/-- The pair returned by `get_normalized_expression`, together with whether
the `UserWarning` of lines 497-502 was emitted. -/
structure NormExprOut where
  warned : Bool
  gene : RetResult
  protein : RetResult

/-- Resolve the requested cell indices (lines 476-479): all cells when
`indices=None`, and the `np.random.choice(indices, n_samples_overall)` draw
(supplied externally as `randPick`) when `n_samples_overall` was given. -/
def resolveIndices (nObs : ℕ) (indicesOpt : Option (List ℕ))
    (randPick : Option (List ℕ)) : List ℕ :=
  let indices := indicesOpt.getD (List.range nObs)
  match randPick with
  | some r => r
  | none => indices

/-- Lines 553-566: assemble the per-minibatch per-sample tensors into the
final array.  For `n_samples = 1` the 2-D minibatch results are concatenated
along the cell axis; for `n_samples > 1` the sample-major 3-D tensors are
concatenated along the cell axis, permuted to (cells, features, samples),
and reduced by the mean over the last axis when `return_mean=True`. -/
def assembleSamples (nSamples : ℕ) (returnMean : Bool)
    (perMB : List (ℕ → Mat)) : NDResult :=
  if 1 < nSamples then
    let t := transpose120 (catDim1 nSamples
      (perMB.map (fun f => (List.range nSamples).map f)))
    if returnMean then .arr2 (meanLastDim t) else .arr3 t
  else
    .arr2 (catDim0 (perMB.map (fun f => f 0)))

/-- Lines 570-585: wrap a raw array as a labeled DataFrame unless
`return_numpy` resolved to `True`; `pd.DataFrame` on a 3-D array raises. -/
def wrapResult (returnNumpy : Option Bool) (rows cols : List String)
    (nd : NDResult) : Except String RetResult :=
  if returnNumpy = none ∨ returnNumpy = some false then
    match nd with
    | .arr2 m => .ok (.df rows cols m)
    | .arr3 _ => .error "Must pass 2-d input"
  else .ok (.raw nd)

/-- `TOTALVI.get_normalized_expression` (`_totalvi.py:396-585`).
`mapping` is the registered batch categorical mapping, `post` the minibatches
of the data loader bundled with the module's outputs on them. -/
def getNormalizedExpression (mapping : List PyCat)
    (obsNames geneNames proteinNames : List String) (nObs : ℕ)
    (indicesOpt : Option (List ℕ)) (randPick : Option (List ℕ))
    (geneList proteinList : Option (List String)) (post : List MBData)
    (tb : PyTB) (opts : NormExprOpts) (returnMean : Bool)
    (returnNumpy : Option Bool) : Except String NormExprOut := do
  let indices := resolveIndices nObs indicesOpt randPick
  let gmask := maskFromList geneNames geneList
  let pmask := maskFromList proteinNames proteinList
  let warned := decide (1 < opts.nSamples) && !returnMean && (returnNumpy == some false)
  let returnNumpy := if 1 < opts.nSamples ∧ returnMean = false then some true
                     else returnNumpy
  let codes ← resolveTransformBatch mapping tb
  let geneND := assembleSamples opts.nSamples returnMean
    (post.map (fun mb => mbGeneScale opts.libSizeLatent gmask codes mb))
  let proND := assembleSamples opts.nSamples returnMean
    (post.map (fun mb => mbProteinScale opts pmask codes mb))
  let rows := indices.map (fun i => obsNames.getD i "")
  let geneRet ← wrapResult returnNumpy rows (maskNames gmask geneNames) geneND
  let proRet ← wrapResult returnNumpy rows (maskNames pmask proteinNames) proND
  .ok ⟨warned, geneRet, proRet⟩

/-- The value returned by `get_protein_foreground_probability`, with the
warning flag of lines 653-658. -/
structure FgProbOut where
  warned : Bool
  result : RetResult

/-- The per-minibatch accumulated mixing probability of sample slice `s`
(lines 670-685): zeros, plus `torch.sigmoid(mixing)[..., protein_mask]`
per transform-batch code, divided by the number of conditions. -/
def mbMixing (pmask : FeatMask) (codes : List (Option ℕ)) (mb : MBData)
    (s : ℕ) : Mat :=
  ewMap (fun v => v / (codes.length : ℝ))
    (codes.foldl
      (fun acc b => matAdd acc (applyMask pmask (ewMap sigmoid (mb.gen b s).py.mixing)))
      (matZerosLike (applyMask pmask mb.y)))

/-- Map a function over the entries of a raw array result. -/
def mapND (f : ℝ → ℝ) : NDResult → NDResult
  | .arr2 m => .arr2 (ewMap f m)
  | .arr3 t => .arr3 (t.map (ewMap f))

/-- `TOTALVI.get_protein_foreground_probability` (`_totalvi.py:588-709`):
accumulates the averaged mixing probabilities and returns `1 - py_mixings`,
as a raw array iff `return_numpy` resolved to `True` (line 700). -/
def getProteinForegroundProbability (mapping : List PyCat)
    (obsNames proteinNames : List String) (nObs : ℕ)
    (indicesOpt : Option (List ℕ)) (proteinList : Option (List String))
    (post : List MBData) (tb : PyTB) (nSamples : ℕ) (returnMean : Bool)
    (returnNumpy : Option Bool) : Except String FgProbOut := do
  let pmask := maskFromList proteinNames proteinList
  let warned := decide (1 < nSamples) && !returnMean && (returnNumpy == some false)
  let returnNumpy := if 1 < nSamples ∧ returnMean = false then some true
                     else returnNumpy
  let indices := indicesOpt.getD (List.range nObs)
  let codes ← resolveTransformBatch mapping tb
  let mixND := assembleSamples nSamples returnMean
    (post.map (fun mb => mbMixing pmask codes mb))
  if returnNumpy = some true then
    .ok ⟨warned, .raw (mapND (fun v => 1 - v) mixND)⟩
  else
    match mapND (fun v => 1 - v) mixND with
    | .arr2 m =>
      .ok ⟨warned, .df (indices.map (fun i => obsNames.getD i ""))
        (maskNames pmask proteinNames) m⟩
    | .arr3 _ => .error "Must pass 2-d input"

/-- Slice `dd[:, :, i]` of a (cells, features, samples) tensor. -/
def sliceSample (dd : T3) (i : ℕ) : Mat :=
  dd.map (fun m => m.map (fun v => v.getD i 0))

/-- Lines 1099-1103: flatten the sample axis of the denoised data into the
cell axis, block `i` of the result being `denoised_data[:, :, i]`. -/
def flattenSamples (n : ℕ) (dd : T3) : Mat :=
  ((List.range n).map (sliceSample dd)).flatten

/-- Lines 1104-1106: `log(x + 1e-8)` on the gene columns and `log1p(x)` on
the protein columns. -/
def logTransformMat (nGenes : ℕ) (m : Mat) : Mat :=
  m.map (fun r => (r.take nGenes).map (fun x => Real.log (x + 1e-8)) ++
    (r.drop nGenes).map (fun x => Real.log (1 + x)))

/-- `np.mean(np.stack(corr_mats), axis=0)` (line 1113). -/
def meanMats (l : List Mat) : Mat :=
  ewMap (fun v => v / (l.length : ℝ)) (l.foldl matAdd (matZerosLike (l.headD [])))

/-- `TOTALVI.get_feature_correlation_matrix` (`_totalvi.py:1034-1121`).
`denoised b` is the `_get_denoised_samples` output for transform batch `b`
(a (cells, features, samples) tensor; its internal Gamma/Bernoulli draws are
external randomness), and `corrOf` is the external correlation kernel
(`np.corrcoef` or `scipy.stats.spearmanr`). -/
def getFeatureCorrelationMatrix (mapping : List PyCat)
    (geneNames proteinNames : List String) (nGenes : ℕ)
    (denoised : Option ℕ → T3) (corrOf : Mat → Mat) (nSamples : ℕ)
    (logTransform : Bool) (tb : PyTB) :
    Except String (List String × Mat) := do
  let codes ← resolveTransformBatch mapping tb
  let corrMats := codes.map (fun b =>
    let flat := flattenSamples nSamples (denoised b)
    let flat := if logTransform then logTransformMat nGenes flat else flat
    corrOf flat)
  let names := geneNames ++ proteinNames
  .ok (names, meanMats corrMats)

/-- Default of the `protein_prior_count` parameter of
`TOTALVI._expression_for_de` (`_totalvi.py:721`). -/
def proteinPriorCountDefault : ℝ := 0.5

/-- Default of the `pseudocounts` parameter of
`TOTALVI.differential_expression` (`_totalvi.py:778`). -/
def dePseudocountsDefault : ℝ := 1e-5

/-- `TOTALVI._expression_for_de` (`_totalvi.py:711-753`): the expression
oracle handed to the DE engine.  Computes normalized expression with
`return_numpy=True, n_samples=1`, restricting a modality to the empty
feature list when its field is disabled, adds `protein_prior_count` to every
protein entry and horizontally concatenates genes and proteins. -/
def expressionForDe (mapping : List PyCat)
    (obsNames geneNames proteinNames : List String) (nObs : ℕ)
    (indicesOpt : Option (List ℕ)) (randPick : Option (List ℕ))
    (post : List MBData) (tb : PyTB)
    (scaleProtein sampleProteinMixing includeProteinBackground : Bool)
    (proteinPriorCount : ℝ) (useRna usePro : Bool) : Except String Mat := do
  let geneList : Option (List String) := if useRna then none else some []
  let proteinList : Option (List String) := if usePro then none else some []
  let out ← getNormalizedExpression mapping obsNames geneNames proteinNames nObs
    indicesOpt randPick geneList proteinList post tb
    ⟨false, 1, sampleProteinMixing, scaleProtein, includeProteinBackground⟩
    true (some true)
  match out.gene, out.protein with
  | .raw (.arr2 rna), .raw (.arr2 pro) =>
    .ok (List.zipWith (fun r p => r ++ p.map (fun v => v + proteinPriorCount)) rna pro)
  | _, _ => .error "expected arrays"

/-- The DE feature-name vector (`_totalvi.py:841-849`): gene names when the
RNA field is used, followed by the protein names suffixed with `"_protein"`
when the protein field is used. -/
def deColNames (geneNames proteinNames : List String)
    (useRna usePro : Bool) : List String :=
  (if useRna then geneNames else []) ++
    (if usePro then proteinNames.map (fun s => s ++ "_protein") else [])

/-- One inference output of the module on a minibatch, as consumed by
`get_latent_library_size` (`_totalvi.py:383-392`): the library posterior
location and scale, and the raw sampled library. -/
structure InfOut where
  qlLoc : Mat
  qlScale : Mat
  libraryGene : Mat

/-- `TOTALVI.get_latent_library_size` (`_totalvi.py:355-393`): per minibatch,
`exp(ql.loc + 0.5 * ql.scale ** 2)` when `give_mean=True`, otherwise the raw
sampled `library_gene`; concatenated over minibatches. -/
def getLatentLibrarySize (giveMean : Bool) (post : List InfOut) : Mat :=
  (post.map (fun o =>
    if giveMean then ewZip (fun l s => Real.exp (l + 0.5 * s ^ 2)) o.qlLoc o.qlScale
    else o.libraryGene)).flatten

/-- A numpy array of the dimensionality `module.sample` produces: 2-D
`(cells, features)` for `n_samples = 1`, 3-D `(n_samples, cells, features)`
otherwise. -/
inductive Arr
  | a2 (m : Mat) : Arr
  | a3 (t : T3) : Arr

/-- One minibatch's `module.sample(tensors, n_samples)` output
(`_totalvi.py:931`): the RNA and protein count draws (external randomness). -/
structure PPMB where
  rna : Arr
  protein : Arr

/-- `sample[..., mask]` on either dimensionality. -/
def maskArr (mask : FeatMask) : Arr → Arr
  | .a2 m => .a2 (applyMask mask m)
  | .a3 t => .a3 (t.map (applyMask mask))

/-- Lines 932-939: mask the sampled counts, and for `n_samples > 1` move the
sample axis to the last position (`np.transpose(x, (1, 2, 0))`). -/
def ppProcess (nSamples : ℕ) (mask : FeatMask) (a : Arr) : Arr :=
  let a := maskArr mask a
  if 1 < nSamples then
    match a with
    | .a3 t => .a3 (transpose120 t)
    | .a2 m => .a2 m
  else a

/-- `np.concatenate(list, axis=0)` over uniformly-dimensioned arrays. -/
def concatArr0 (l : List Arr) : Arr :=
  if l.all (fun a => match a with | .a3 _ => true | .a2 _ => false) then
    .a3 ((l.map (fun a => match a with | .a3 t => t | .a2 _ => [])).flatten)
  else
    .a2 ((l.map (fun a => match a with | .a2 m => m | .a3 _ => [])).flatten)

/-- `TOTALVI.posterior_predictive_sample` (`_totalvi.py:876-946`): rejects
any gene likelihood outside `["nb"]` before touching the data, then draws,
masks, transposes and concatenates the module's count samples, returning a
mapping keyed `"rna"`/`"protein"` for AnnData input and by the registered
modality names for MuData input. -/
def posteriorPredictiveSample (geneLikelihood : String)
    (geneNames proteinNames : List String)
    (geneList proteinList : Option (List String)) (isAnnData : Bool)
    (rnaLayer proteinLayer : String) (nSamples : ℕ) (post : List PPMB) :
    Except String (List (String × Arr)) :=
  if geneLikelihood ∉ ["nb"] then .error "Invalid gene_likelihood"
  else
    let gmask := maskFromList geneNames geneList
    let pmask := maskFromList proteinNames proteinList
    let rna := concatArr0 (post.map (fun mb => ppProcess nSamples gmask mb.rna))
    let protein := concatArr0 (post.map (fun mb => ppProcess nSamples pmask mb.protein))
    if isAnnData then .ok [("rna", rna), ("protein", protein)]
    else .ok [(rnaLayer, rna), (proteinLayer, protein)]

/-- The two components of a fitted `GaussianMixture(n_components=2)`:
`means_.ravel()` and `covariances_.ravel()`. -/
structure GMM2 where
  mean0 : ℝ
  mean1 : ℝ
  cov0 : ℝ
  cov1 : ℝ

/-- `np.log1p`. -/
def log1p (x : ℝ) : ℝ := Real.log (1 + x)

/-- Lines 1235-1250: fit a 2-component GMM to one sampled cell's `log1p`
protein counts (the sklearn fit `gmmFit` is external; `none` models the
`ConvergenceWarning` raised as an error).  A non-converged cell contributes
`(0, 0.05)`; otherwise the component with the lower mean (`np.argsort` puts
the smaller mean first, keeping index order on ties) is taken as background,
with scale `sqrt` of its covariance. -/
def cellPrior (gmmFit : List ℝ → Option GMM2) (c : List ℝ) : ℝ × ℝ :=
  match gmmFit (c.map log1p) with
  | none => (0, 0.05)
  | some g =>
    if g.mean0 ≤ g.mean1 then (g.mean0, Real.sqrt g.cov0)
    else (g.mean1, Real.sqrt g.cov1)

/-- `m[keep]`: numpy boolean row indexing. -/
def selectRows (m : Mat) (keep : List Bool) : Mat :=
  ((m.zip keep).filter (fun p => p.2)).map (fun p => p.1)

/-- The per-cell `(mu, scale)` pairs of the subsampled cells (lines
1230-1250): `cellsIdx` is the external `np.random.choice(arange(n), size=
n_cells)` draw (with replacement, so indices may repeat). -/
def sampledCellPriors (gmmFit : List ℝ → Option GMM2) (cellsIdx : List ℕ)
    (bpe : Mat) : List (ℝ × ℝ) :=
  (cellsIdx.map (fun i => bpe.getD i [])).map (cellPrior gmmFit)

/-- Lines 1230-1254: subsample `n_cells` cells, fit the per-cell GMMs, and
aggregate: batch mean `np.mean(mus)`, batch scale
`np.sqrt(np.sum(np.square(scales)) / n_cells ** 2)`. -/
def batchAgg (gmmFit : List ℝ → Option GMM2) (cellsIdx : List ℕ) (nCells : ℕ)
    (bpe : Mat) : ℝ × ℝ :=
  let prs := sampledCellPriors gmmFit cellsIdx bpe
  let mus := prs.map (fun p => p.1)
  let scales := prs.map (fun p => p.2)
  (mus.sum / (mus.length : ℝ),
    Real.sqrt ((scales.map (fun s => s ^ 2)).sum / ((nCells : ℝ) ^ 2)))

/-- `pro_exp[batch == b]` (line 1210). -/
def batchRows (proExp : Mat) (batchOf : List ℕ) (b : ℕ) : Mat :=
  selectRows proExp (batchOf.map (fun v => decide (v = b)))

/-- The prior of one batch `b` (`_totalvi.py:1202-1257`): `(0, 1)` for a
batch with no assigned cells; after masking, `(0.0, 0.05)` when fewer than 5
usable proteins remain or (reference-only batches) no rows remain; otherwise
the subsample-and-fit aggregation. -/
def batchPriorOf (gmmFit : List ℝ → Option GMM2) (chooseCells : ℕ → List ℕ)
    (nCells : ℕ) (proExp : Mat) (batchOf : List ℕ)
    (batchMask : Option (ℕ → List Bool)) (b : ℕ) : ℝ × ℝ :=
  if batchOf.countP (fun v => v = b) = 0 then (0, 1)
  else
    let bpe := batchRows proExp batchOf b
    match batchMask with
    | some mask =>
      let bpe2 := applyMask (.boolMask (mask b)) bpe
      if (bpe2.getD 0 []).length < 5 then (0.0, 0.05)
      else if bpe2.length = 0 then (0.0, 0.05)
      else batchAgg gmmFit (chooseCells b) nCells bpe2
    | none =>
      if bpe.length = 0 then (0.0, 0.05)
      else batchAgg gmmFit (chooseCells b) nCells bpe

/-- `TOTALVI._get_totalvi_protein_priors` (`_totalvi.py:1173-1265`): the
per-batch priors, tiled over proteins into `(proteins × batches)` mean and
scale matrices (lines 1259-1263). -/
def getTotalviProteinPriors (gmmFit : List ℝ → Option GMM2)
    (chooseCells : ℕ → List ℕ) (nCells : ℕ) (proExp : Mat)
    (batchOf : List ℕ) (batchMask : Option (ℕ → List Bool)) (nBatches : ℕ) :
    Mat × Mat :=
  let priors := (List.range nBatches).map
    (batchPriorOf gmmFit chooseCells nCells proExp batchOf batchMask)
  let nProteins := (proExp.getD 0 []).length
  (List.replicate nProteins (priors.map (fun p => p.1)),
    List.replicate nProteins (priors.map (fun p => p.2)))

/-- Default of the `n_cells` parameter of `_get_totalvi_protein_priors`
(`_totalvi.py:1173`). -/
def nCellsDefault : ℕ := 100

/-! ## Shape and entry lemmas -/

theorem applyMask_all (m : Mat) : applyMask .all m = m := by
  have h : maskRow FeatMask.all = id := funext (fun r => rfl)
  simp [applyMask, h]

theorem isRect_ewMap (f : ℝ → ℝ) (m : Mat) (r c : ℕ) (h : isRect m r c) :
    isRect (ewMap f m) r c := by
  obtain ⟨hr, hc⟩ := h
  refine ⟨by simpa [ewMap], ?_⟩
  intro row hrow
  simp only [ewMap, List.mem_map] at hrow
  obtain ⟨row₀, hrow₀, rfl⟩ := hrow
  simpa using hc row₀ hrow₀

theorem isRect_ewZip (f : ℝ → ℝ → ℝ) (a b : Mat) (r c : ℕ)
    (ha : isRect a r c) (hb : isRect b r c) : isRect (ewZip f a b) r c := by
  obtain ⟨har, hac⟩ := ha
  obtain ⟨hbr, hbc⟩ := hb
  refine ⟨by simp [ewZip, har, hbr], ?_⟩
  intro row hrow
  simp only [ewZip] at hrow
  obtain ⟨i, hi, rfl⟩ := List.mem_iff_getElem.mp hrow
  simp only [List.length_zipWith] at hi
  rw [List.getElem_zipWith]
  rw [List.length_zipWith]
  rw [hac _ (List.getElem_mem _), hbc _ (List.getElem_mem _)]
  omega

theorem isRect_matZerosLike (m : Mat) (r c : ℕ) (h : isRect m r c) :
    isRect (matZerosLike m) r c := isRect_ewMap _ m r c h

theorem entry_ewMap (f : ℝ → ℝ) (m : Mat) (r c i j : ℕ) (h : isRect m r c)
    (hi : i < r) (hj : j < c) : entry (ewMap f m) i j = f (entry m i j) := by
  obtain ⟨hr, hc⟩ := h
  subst hr
  have hi' : i < (ewMap f m).length := by simpa [ewMap]
  rw [entry, List.getD_eq_getElem _ _ hi']
  rw [entry, List.getD_eq_getElem _ _ hi]
  simp only [ewMap, List.getElem_map]
  have hj' : j < m[i].length := by rw [hc _ (List.getElem_mem _)]; exact hj
  rw [List.getD_eq_getElem _ _ (by simpa using hj')]
  rw [List.getD_eq_getElem _ _ hj']
  simp

theorem entry_ewZip (f : ℝ → ℝ → ℝ) (a b : Mat) (r c i j : ℕ)
    (ha : isRect a r c) (hb : isRect b r c) (hi : i < r) (hj : j < c) :
    entry (ewZip f a b) i j = f (entry a i j) (entry b i j) := by
  obtain ⟨har, hac⟩ := ha
  obtain ⟨hbr, hbc⟩ := hb
  have hia : i < a.length := by omega
  have hib : i < b.length := by omega
  have hi' : i < (ewZip f a b).length := by
    simp [ewZip, List.length_zipWith]; omega
  rw [entry, List.getD_eq_getElem _ _ hi']
  rw [entry, List.getD_eq_getElem _ _ hia]
  rw [entry, List.getD_eq_getElem _ _ hib]
  simp only [ewZip]
  rw [List.getElem_zipWith]
  have hja : j < a[i].length := by rw [hac _ (List.getElem_mem _)]; exact hj
  have hjb : j < b[i].length := by rw [hbc _ (List.getElem_mem _)]; exact hj
  have hj' : j < (List.zipWith f a[i] b[i]).length := by
    simp [List.length_zipWith]; omega
  rw [List.getD_eq_getElem _ _ hj', List.getD_eq_getElem _ _ hja,
    List.getD_eq_getElem _ _ hjb]
  rw [List.getElem_zipWith]

theorem entry_matZerosLike (m : Mat) (r c i j : ℕ) (h : isRect m r c)
    (hi : i < r) (hj : j < c) : entry (matZerosLike m) i j = 0 :=
  entry_ewMap _ m r c i j h hi hj

theorem isRect_foldl_matAdd {α : Type} (f : α → Mat) (l : List α) (z : Mat)
    (r c : ℕ) (hz : isRect z r c) (hf : ∀ a ∈ l, isRect (f a) r c) :
    isRect (l.foldl (fun acc a => matAdd acc (f a)) z) r c := by
  induction l generalizing z with
  | nil => exact hz
  | cons hd tl ih =>
    simp only [List.foldl_cons]
    exact ih _ (isRect_ewZip _ _ _ _ _ hz (hf hd (by simp)))
      (fun a ha => hf a (by simp [ha]))

theorem entry_foldl_matAdd {α : Type} (f : α → Mat) (l : List α) (z : Mat)
    (r c i j : ℕ) (hz : isRect z r c) (hf : ∀ a ∈ l, isRect (f a) r c)
    (hi : i < r) (hj : j < c) :
    entry (l.foldl (fun acc a => matAdd acc (f a)) z) i j =
      entry z i j + (l.map (fun a => entry (f a) i j)).sum := by
  induction l generalizing z with
  | nil => simp
  | cons hd tl ih =>
    simp only [List.foldl_cons, List.map_cons, List.sum_cons]
    rw [ih (matAdd z (f hd)) (isRect_ewZip _ _ _ _ _ hz (hf hd (by simp)))
      (fun a ha => hf a (by simp [ha]))]
    rw [show entry (matAdd z (f hd)) i j = entry z i j + entry (f hd) i j from
      entry_ewZip _ _ _ r c i j hz (hf hd (by simp)) hi hj]
    ring

theorem sum_map_div (l : List ℝ) (n : ℝ) :
    (l.map (fun x => x / n)).sum = l.sum / n := by
  induction l with
  | nil => simp
  | cons hd tl ih => simp [ih, add_div]

theorem sum_zipWith_add (xs ys : List ℝ) (h : xs.length = ys.length) :
    (List.zipWith (· + ·) xs ys).sum = xs.sum + ys.sum := by
  induction xs generalizing ys with
  | nil => cases ys with
    | nil => simp
    | cons _ _ => simp at h
  | cons x xt ih =>
    cases ys with
    | nil => simp at h
    | cons y yt =>
      simp only [List.zipWith_cons_cons, List.sum_cons]
      rw [ih yt (by simpa using h)]
      ring

theorem row_getD_length (m : Mat) (r c i : ℕ) (h : isRect m r c) (hi : i < r) :
    (m.getD i []).length = c := by
  obtain ⟨hr, hc⟩ := h
  rw [List.getD_eq_getElem _ _ (by omega)]
  exact hc _ (List.getElem_mem _)

theorem rowSum_ewMap_div (m : Mat) (n : ℝ) (i : ℕ) (hi : i < m.length) :
    rowSum (ewMap (fun v => v / n) m) i = rowSum m i / n := by
  have hi' : i < (ewMap (fun v => v / n) m).length := by simpa [ewMap]
  rw [rowSum, List.getD_eq_getElem _ _ hi']
  rw [rowSum, List.getD_eq_getElem _ _ hi]
  simp only [ewMap, List.getElem_map]
  exact sum_map_div _ n

theorem rowSum_matAdd (a b : Mat) (r c i : ℕ) (ha : isRect a r c)
    (hb : isRect b r c) (hi : i < r) :
    rowSum (matAdd a b) i = rowSum a i + rowSum b i := by
  obtain ⟨har, hac⟩ := ha
  obtain ⟨hbr, hbc⟩ := hb
  have hia : i < a.length := by omega
  have hib : i < b.length := by omega
  have hi' : i < (matAdd a b).length := by
    simp [matAdd, ewZip, List.length_zipWith]; omega
  rw [rowSum, List.getD_eq_getElem _ _ hi']
  rw [rowSum, List.getD_eq_getElem _ _ hia]
  rw [rowSum, List.getD_eq_getElem _ _ hib]
  simp only [matAdd, ewZip]
  rw [List.getElem_zipWith]
  exact sum_zipWith_add _ _ (by
    rw [hac _ (List.getElem_mem _), hbc _ (List.getElem_mem _)])

theorem rowSum_foldl_matAdd {α : Type} (f : α → Mat) (l : List α) (z : Mat)
    (r c i : ℕ) (hz : isRect z r c) (hf : ∀ a ∈ l, isRect (f a) r c)
    (hi : i < r) :
    rowSum (l.foldl (fun acc a => matAdd acc (f a)) z) i =
      rowSum z i + (l.map (fun a => rowSum (f a) i)).sum := by
  induction l generalizing z with
  | nil => simp
  | cons hd tl ih =>
    simp only [List.foldl_cons, List.map_cons, List.sum_cons]
    rw [ih (matAdd z (f hd)) (isRect_ewZip _ _ _ _ _ hz (hf hd (by simp)))
      (fun a ha => hf a (by simp [ha]))]
    rw [rowSum_matAdd z (f hd) r c i hz (hf hd (by simp)) hi]
    ring

theorem sum_l1Normalize (v : List ℝ) (hpos : ∀ x ∈ v, 0 ≤ x)
    (hge : 1e-12 ≤ v.sum) : (l1Normalize v).sum = 1 := by
  have habs : (v.map (fun y => |y|)).sum = v.sum := by
    congr 1
    exact List.map_congr_left (fun x hx => abs_of_nonneg (hpos x hx)) |>.trans
      (List.map_id v)
  rw [l1Normalize, sum_map_div, habs, max_eq_left (le_trans (by norm_num) hge)]
  have : (0 : ℝ) < v.sum := lt_of_lt_of_le (by norm_num) hge
  field_simp

theorem getD_range_map {α : Type} (f : ℕ → α) (n i : ℕ) (d : α) (h : i < n) :
    ((List.range n).map f).getD i d = f i := by
  rw [List.getD_eq_getElem _ _ (by simpa)]
  simp

theorem getD_map_lt {α β : Type} (f : α → β) (l : List α) (i : ℕ) (d : β)
    (h : i < l.length) : (l.map f).getD i d = f l[i] := by
  rw [List.getD_eq_getElem _ _ (by simpa)]
  simp

theorem getD_replicate_lt {α : Type} (a : α) (n i : ℕ) (d : α) (h : i < n) :
    (List.replicate n a).getD i d = a := by
  rw [List.getD_eq_getElem _ _ (by simpa)]
  simp

theorem except_bind_ok {ε α β : Type} (a : α) (f : α → Except ε β) :
    ((Except.ok a : Except ε α) >>= f) = f a := rfl

/-- The two wrapping steps (call-site `isinstance` check and the helper's own
string handling) send every non-list `transform_batch` value to the same code
list as its explicit one-element-list form. -/
theorem resolveTransformBatch_single (mapping : List PyCat) (tb : PyTB)
    (h : isListArg tb = false) :
    resolveTransformBatch mapping tb =
      resolveTransformBatch mapping (.pylist [singleToCat tb]) := by
  cases tb with
  | pynone => rfl
  | pynum n => rfl
  | pystr s => rfl
  | pylist l => simp [isListArg] at h

/-! ## Claim theorems -/

/-- **C9.** `posterior_predictive_sample` raises
`ValueError("Invalid gene_likelihood")` whenever the module's configured gene
likelihood is outside the single supported family `["nb"]`, and it does so
independently of the data and sampler (the guard at `_totalvi.py:910-911`
precedes data loading and sampling, so the error is the same for every
`post`); when the gene likelihood is `"nb"` the check raises nothing and the
call returns a value. -/
theorem c9_invalid_gene_likelihood (gl : String)
    (geneNames proteinNames : List String)
    (geneList proteinList : Option (List String)) (isAnnData : Bool)
    (rnaLayer proteinLayer : String) (nSamples : ℕ) (post : List PPMB) :
    (gl ∉ ["nb"] →
      posteriorPredictiveSample gl geneNames proteinNames geneList proteinList
        isAnnData rnaLayer proteinLayer nSamples post =
        .error "Invalid gene_likelihood") ∧
    (gl = "nb" →
      ∃ v, posteriorPredictiveSample gl geneNames proteinNames geneList
        proteinList isAnnData rnaLayer proteinLayer nSamples post = .ok v) := by
  constructor
  · intro h
    rw [posteriorPredictiveSample, if_pos h]
  · intro h
    subst h
    rw [posteriorPredictiveSample, if_neg (by simp)]
    by_cases hA : isAnnData
    · rw [if_pos hA]; exact ⟨_, rfl⟩
    · rw [if_neg hA]; exact ⟨_, rfl⟩

/-- **C9 witness.** The guard fires for `"zinb"` and not for `"nb"`. -/
theorem c9_invalid_gene_likelihood_witness :
    posteriorPredictiveSample "zinb" [] [] none none true "rna_x" "pro_x" 1 [] =
      .error "Invalid gene_likelihood" ∧
    ∃ v, posteriorPredictiveSample "nb" [] [] none none true "rna_x" "pro_x" 1 [] =
      .ok v :=
  ⟨(c9_invalid_gene_likelihood "zinb" [] [] none none true "rna_x" "pro_x" 1 []).1
      (by decide),
    (c9_invalid_gene_likelihood "nb" [] [] none none true "rna_x" "pro_x" 1 []).2 rfl⟩

/-- **C5.** For every single non-list `transform_batch` value (`None`, a
number, or a bare string category), `get_normalized_expression`,
`get_protein_foreground_probability` and `get_feature_correlation_matrix`
produce exactly the same output as when the corresponding one-element list is
passed: the value is normalized to a one-element list before the shared
multi-condition-averaging iteration. -/
theorem c5_single_value_equals_singleton_list (mapping : List PyCat)
    (tb : PyTB) (h : isListArg tb = false)
    (obsNames geneNames proteinNames : List String) (nObs : ℕ)
    (indicesOpt randPick : Option (List ℕ))
    (geneList proteinList : Option (List String)) (post : List MBData)
    (opts : NormExprOpts) (returnMean : Bool) (returnNumpy : Option Bool)
    (nSamples nGenes : ℕ) (denoised : Option ℕ → T3) (corrOf : Mat → Mat)
    (logTransform : Bool) :
    getNormalizedExpression mapping obsNames geneNames proteinNames nObs
        indicesOpt randPick geneList proteinList post tb opts returnMean
        returnNumpy =
      getNormalizedExpression mapping obsNames geneNames proteinNames nObs
        indicesOpt randPick geneList proteinList post
        (.pylist [singleToCat tb]) opts returnMean returnNumpy ∧
    getProteinForegroundProbability mapping obsNames proteinNames nObs
        indicesOpt proteinList post tb nSamples returnMean returnNumpy =
      getProteinForegroundProbability mapping obsNames proteinNames nObs
        indicesOpt proteinList post (.pylist [singleToCat tb]) nSamples
        returnMean returnNumpy ∧
    getFeatureCorrelationMatrix mapping geneNames proteinNames nGenes denoised
        corrOf nSamples logTransform tb =
      getFeatureCorrelationMatrix mapping geneNames proteinNames nGenes denoised
        corrOf nSamples logTransform (.pylist [singleToCat tb]) := by
  refine ⟨?_, ?_, ?_⟩ <;>
    simp only [getNormalizedExpression, getProteinForegroundProbability,
      getFeatureCorrelationMatrix, resolveTransformBatch_single mapping tb h]

/-- **C5 witness.** The equivalence at the concrete value `transform_batch = 1`. -/
theorem c5_single_value_equals_singleton_list_witness :
    isListArg (PyTB.pynum 1) = false ∧
    (getNormalizedExpression [PyCat.cnum 1] [] [] [] 0 none none none none []
        (.pynum 1) ⟨false, 1, false, false, false⟩ true none =
      getNormalizedExpression [PyCat.cnum 1] [] [] [] 0 none none none none []
        (.pylist [singleToCat (.pynum 1)]) ⟨false, 1, false, false, false⟩
        true none) ∧
    (getProteinForegroundProbability [PyCat.cnum 1] [] [] 0 none none []
        (.pynum 1) 1 true none =
      getProteinForegroundProbability [PyCat.cnum 1] [] [] 0 none none []
        (.pylist [singleToCat (.pynum 1)]) 1 true none) ∧
    (getFeatureCorrelationMatrix [PyCat.cnum 1] [] [] 0 (fun _ => [])
        (fun m => m) 1 false (.pynum 1) =
      getFeatureCorrelationMatrix [PyCat.cnum 1] [] [] 0 (fun _ => [])
        (fun m => m) 1 false (.pylist [singleToCat (.pynum 1)])) :=
  ⟨rfl, c5_single_value_equals_singleton_list [PyCat.cnum 1] (.pynum 1) rfl
    [] [] [] 0 none none none none [] ⟨false, 1, false, false, false⟩ true none
    1 0 (fun _ => []) (fun m => m) false⟩

/-- **C7.** In `get_latent_library_size`, with `give_mean=True` every
returned entry is the posterior mean `exp(loc + 0.5 * scale^2)` of the
log-normal library posterior, and with `give_mean=False` the returned tensor
is the concatenation of the raw sampled `library_gene` values of the
inference outputs. -/
theorem c7_latent_library_size (post : List InfOut) (o : InfOut)
    (_ho : o ∈ post) (r c i j : ℕ) (h1 : isRect o.qlLoc r c)
    (h2 : isRect o.qlScale r c) (hi : i < r) (hj : j < c) :
    getLatentLibrarySize true post =
      (post.map (fun o =>
        ewZip (fun l s => Real.exp (l + 0.5 * s ^ 2)) o.qlLoc o.qlScale)).flatten ∧
    entry (ewZip (fun l s => Real.exp (l + 0.5 * s ^ 2)) o.qlLoc o.qlScale) i j =
      Real.exp (entry o.qlLoc i j + 0.5 * (entry o.qlScale i j) ^ 2) ∧
    getLatentLibrarySize false post = (post.map (fun o => o.libraryGene)).flatten := by
  refine ⟨by simp [getLatentLibrarySize], ?_, by simp [getLatentLibrarySize]⟩
  exact entry_ewZip _ _ _ r c i j h1 h2 hi hj

/-- **C7 witness.** A single one-cell minibatch with `loc = 0`, `scale = 0`:
the posterior mean is `exp 0`. -/
theorem c7_latent_library_size_witness :
    getLatentLibrarySize true [⟨[[0]], [[0]], [[5]]⟩] =
      (([⟨[[0]], [[0]], [[5]]⟩] : List InfOut).map (fun o =>
        ewZip (fun l s => Real.exp (l + 0.5 * s ^ 2)) o.qlLoc o.qlScale)).flatten ∧
    entry (ewZip (fun l s => Real.exp (l + 0.5 * s ^ 2))
      (InfOut.qlLoc ⟨[[0]], [[0]], [[5]]⟩) (InfOut.qlScale ⟨[[0]], [[0]], [[5]]⟩))
      0 0 =
      Real.exp (entry (InfOut.qlLoc ⟨[[0]], [[0]], [[5]]⟩) 0 0 +
        0.5 * (entry (InfOut.qlScale ⟨[[0]], [[0]], [[5]]⟩) 0 0) ^ 2) ∧
    getLatentLibrarySize false [⟨[[0]], [[0]], [[5]]⟩] =
      (([⟨[[0]], [[0]], [[5]]⟩] : List InfOut).map (fun o => o.libraryGene)).flatten :=
  c7_latent_library_size [⟨[[0]], [[0]], [[5]]⟩] ⟨[[0]], [[0]], [[5]]⟩
    (by simp) 1 1 0 0 ⟨rfl, by simp⟩ ⟨rfl, by simp⟩ (by norm_num) (by norm_num)

/-- Evaluation of `get_normalized_expression` on the `n_samples = 1`,
`return_numpy = True` path: the warning is not emitted and both outputs are
the raw 2-D concatenations of the per-minibatch averaged tensors. -/
theorem getNormalizedExpression_numpy_single (mapping : List PyCat)
    (obsNames geneNames proteinNames : List String) (nObs : ℕ)
    (indicesOpt randPick : Option (List ℕ))
    (geneList proteinList : Option (List String)) (post : List MBData)
    (tb : PyTB) (codes : List (Option ℕ))
    (hres : resolveTransformBatch mapping tb = .ok codes)
    (opts : NormExprOpts) (hn : opts.nSamples = 1) (returnMean : Bool) :
    getNormalizedExpression mapping obsNames geneNames proteinNames nObs
        indicesOpt randPick geneList proteinList post tb opts returnMean
        (some true) =
      .ok ⟨false,
        .raw (.arr2 (catDim0 (post.map (fun mb =>
          mbGeneScale opts.libSizeLatent (maskFromList geneNames geneList)
            codes mb 0)))),
        .raw (.arr2 (catDim0 (post.map (fun mb =>
          mbProteinScale opts (maskFromList proteinNames proteinList)
            codes mb 0))))⟩ := by
  rw [getNormalizedExpression, hres]
  simp only [except_bind_ok, hn, assembleSamples, wrapResult, List.map_map]
  norm_num
  rfl

/-- **C6.** Whenever `n_samples > 1` and `return_mean=False`,
`get_normalized_expression` and `get_protein_foreground_probability` return
raw 3-D arrays (never a labeled DataFrame), even when the caller explicitly
passed `return_numpy=False`; in that explicit-request case the `UserWarning`
is emitted and the call still returns successfully. -/
theorem c6_multisample_forces_raw_array (mapping : List PyCat)
    (obsNames geneNames proteinNames : List String) (nObs : ℕ)
    (indicesOpt randPick : Option (List ℕ))
    (geneList proteinList : Option (List String)) (post : List MBData)
    (tb : PyTB) (codes : List (Option ℕ))
    (hres : resolveTransformBatch mapping tb = .ok codes)
    (opts : NormExprOpts) (h1 : 1 < opts.nSamples)
    (nSamples : ℕ) (h2 : 1 < nSamples) (returnNumpy : Option Bool) :
    (∃ out : NormExprOut,
      getNormalizedExpression mapping obsNames geneNames proteinNames nObs
          indicesOpt randPick geneList proteinList post tb opts false
          returnNumpy = .ok out ∧
      (∃ t, out.gene = .raw (.arr3 t)) ∧ (∃ t, out.protein = .raw (.arr3 t)) ∧
      (returnNumpy = some false → out.warned = true)) ∧
    (∃ out : FgProbOut,
      getProteinForegroundProbability mapping obsNames proteinNames nObs
          indicesOpt proteinList post tb nSamples false returnNumpy =
        .ok out ∧
      (∃ t, out.result = .raw (.arr3 t)) ∧
      (returnNumpy = some false → out.warned = true)) := by
  constructor
  · rw [getNormalizedExpression, hres]
    simp only [except_bind_ok, assembleSamples, wrapResult, h1, eq_self_iff_true,
      and_true, true_and, if_true, and_self, reduceCtorEq, or_self, if_false,
      Bool.false_eq_true]
    refine ⟨_, rfl, ⟨_, rfl⟩, ⟨_, rfl⟩, fun hrn => ?_⟩
    simp [hrn, h1]
  · rw [getProteinForegroundProbability, hres]
    simp only [except_bind_ok, assembleSamples, h2, eq_self_iff_true, and_true,
      true_and, if_true, and_self, Bool.false_eq_true, if_false, mapND]
    refine ⟨_, rfl, ⟨_, rfl⟩, fun hrn => ?_⟩
    simp [hrn, h2]

/-- Shape of the raw protein value. -/
theorem isRect_proteinValRaw (opts : NormExprOpts) (g : GenOut) (bern : Mat)
    (r c : ℕ) (hmix : isRect g.py.mixing r c) (hfore : isRect g.py.rateFore r c)
    (hback : isRect g.py.rateBack r c) (hbern : isRect bern r c) :
    isRect (proteinValRaw opts g bern) r c := by
  have hpmr : isRect (proteinMixing opts g bern) r c := by
    unfold proteinMixing
    split
    · exact hbern
    · exact isRect_ewMap _ _ _ _ hmix
  unfold proteinValRaw
  split
  · exact isRect_ewZip _ _ _ r c (isRect_ewZip _ _ _ r c hfore hpmr)
      (isRect_ewZip _ _ _ r c hback hpmr)
  · exact isRect_ewZip _ _ _ r c hfore hpmr

/-- Entry formula of the raw protein value: foreground rate weighted by one
minus the mixing weight, plus the background term when requested; the mixing
weight is the Bernoulli draw when `sample_protein_mixing=True` and the
sigmoid of the mixing logit otherwise. -/
theorem entry_proteinValRaw (opts : NormExprOpts) (g : GenOut) (bern : Mat)
    (r c i j : ℕ) (hmix : isRect g.py.mixing r c)
    (hfore : isRect g.py.rateFore r c) (hback : isRect g.py.rateBack r c)
    (hbern : isRect bern r c) (hi : i < r) (hj : j < c) :
    entry (proteinValRaw opts g bern) i j =
      entry g.py.rateFore i j *
        (1 - (if opts.sampleProteinMixing then entry bern i j
              else sigmoid (entry g.py.mixing i j))) +
      (if opts.includeProteinBackground then
        entry g.py.rateBack i j *
          (if opts.sampleProteinMixing then entry bern i j
           else sigmoid (entry g.py.mixing i j))
       else 0) := by
  have hpmr : isRect (proteinMixing opts g bern) r c := by
    unfold proteinMixing
    split
    · exact hbern
    · exact isRect_ewMap _ _ _ _ hmix
  have hpme : entry (proteinMixing opts g bern) i j =
      (if opts.sampleProteinMixing then entry bern i j
       else sigmoid (entry g.py.mixing i j)) := by
    unfold proteinMixing
    split
    · rfl
    · exact entry_ewMap _ _ _ _ _ _ hmix hi hj
  unfold proteinValRaw
  cases hbg : opts.includeProteinBackground
  · simp only [hbg, Bool.false_eq_true, if_false]
    rw [entry_ewZip _ _ _ r c i j hfore hpmr hi hj, hpme]
    ring
  · simp only [hbg, if_true]
    rw [show entry (matAdd (ewZip (fun f m => f * (1 - m)) g.py.rateFore
        (proteinMixing opts g bern)) (matMul g.py.rateBack
        (proteinMixing opts g bern))) i j = _ + _ from entry_ewZip _ _ _ r c i j
          (isRect_ewZip _ _ _ r c hfore hpmr) (isRect_ewZip _ _ _ r c hback hpmr) hi hj]
    rw [entry_ewZip _ _ _ r c i j hfore hpmr hi hj,
      show entry (matMul g.py.rateBack (proteinMixing opts g bern)) i j = _ * _ from
        entry_ewZip _ _ _ r c i j hback hpmr hi hj, hpme]

/-- With `scale_protein=False` and no protein subset, the transform-batch
contribution is exactly the raw protein value. -/
theorem proteinContrib_all_noscale (opts : NormExprOpts) (g : GenOut)
    (bern : Mat) (hsc : opts.scaleProtein = false) :
    proteinContrib opts g bern .all = proteinValRaw opts g bern := by
  unfold proteinContrib
  rw [hsc]
  simp [applyMask_all]

/-- **C1.** In `get_normalized_expression`, for every cell and protein the
normalized protein value equals the foreground rate weighted by
`(1 - mixing_probability)` with `mixing_probability = sigmoid(mixing logit)`;
when `include_protein_background=True` the background rate weighted by the
mixing probability is added; when `sample_protein_mixing=True` the mixing
weight is the Bernoulli draw instead of the expectation; and when a list of
transform-batches is requested, the final per-cell value is the unweighted
arithmetic mean (sum divided by the number of conditions) over the
conditions. -/
theorem c1_normalized_protein_value (mapping : List PyCat)
    (obsNames geneNames proteinNames : List String) (nObs : ℕ)
    (indicesOpt randPick : Option (List ℕ)) (geneList : Option (List String))
    (post : List MBData) (tb : PyTB) (codes : List (Option ℕ))
    (hres : resolveTransformBatch mapping tb = .ok codes)
    (opts : NormExprOpts) (hn : opts.nSamples = 1)
    (hsc : opts.scaleProtein = false) (returnMean : Bool) (P : ℕ)
    (hshape : ∀ mb ∈ post, isRect mb.y mb.y.length P ∧ ∀ b s,
      isRect (mb.gen b s).py.mixing mb.y.length P ∧
      isRect (mb.gen b s).py.rateFore mb.y.length P ∧
      isRect (mb.gen b s).py.rateBack mb.y.length P ∧
      isRect (mb.bern b s) mb.y.length P) :
    ∃ out : NormExprOut,
      getNormalizedExpression mapping obsNames geneNames proteinNames nObs
          indicesOpt randPick geneList none post tb opts returnMean
          (some true) = .ok out ∧
      out.protein = .raw (.arr2 (catDim0 (post.map (fun mb =>
        mbProteinScale opts .all codes mb 0)))) ∧
      ∀ mb ∈ post, ∀ i < mb.y.length, ∀ j < P,
        entry (mbProteinScale opts .all codes mb 0) i j =
          (codes.map (fun b =>
            entry (mb.gen b 0).py.rateFore i j *
              (1 - (if opts.sampleProteinMixing then entry (mb.bern b 0) i j
                    else sigmoid (entry (mb.gen b 0).py.mixing i j))) +
            (if opts.includeProteinBackground then
              entry (mb.gen b 0).py.rateBack i j *
                (if opts.sampleProteinMixing then entry (mb.bern b 0) i j
                 else sigmoid (entry (mb.gen b 0).py.mixing i j))
             else 0))).sum / (codes.length : ℝ) := by
  refine ⟨_, getNormalizedExpression_numpy_single mapping obsNames geneNames
    proteinNames nObs indicesOpt randPick geneList none post tb codes hres opts
    hn returnMean, rfl, ?_⟩
  intro mb hmb i hi j hj
  obtain ⟨hy, hg⟩ := hshape mb hmb
  have hzr : isRect (applyMask FeatMask.all (matZerosLike mb.y)) mb.y.length P := by
    rw [applyMask_all]
    exact isRect_matZerosLike _ _ _ hy
  have hcr : ∀ b ∈ codes, isRect
      (proteinContrib opts (mb.gen b 0) (mb.bern b 0) FeatMask.all) mb.y.length P := by
    intro b _
    rw [proteinContrib_all_noscale _ _ _ hsc]
    obtain ⟨h1, h2, h3, h4⟩ := hg b 0
    exact isRect_proteinValRaw _ _ _ _ _ h1 h2 h3 h4
  have hF : isRect (codes.foldl (fun acc b => matAdd acc
      (proteinContrib opts (mb.gen b 0) (mb.bern b 0) FeatMask.all))
      (applyMask FeatMask.all (matZerosLike mb.y))) mb.y.length P :=
    isRect_foldl_matAdd _ codes _ _ _ hzr hcr
  rw [mbProteinScale, entry_ewMap _ _ mb.y.length P i j hF hi hj,
    entry_foldl_matAdd _ codes _ mb.y.length P i j hzr hcr hi hj]
  rw [show entry (applyMask FeatMask.all (matZerosLike mb.y)) i j = 0 by
    rw [applyMask_all]
    exact entry_matZerosLike _ _ _ _ _ hy hi hj]
  rw [zero_add]
  congr 1
  exact congrArg List.sum (List.map_congr_left (fun b _ => by
    obtain ⟨h1, h2, h3, h4⟩ := hg b 0
    rw [proteinContrib_all_noscale _ _ _ hsc]
    exact entry_proteinValRaw opts _ _ mb.y.length P i j h1 h2 h3 h4 hi hj))

/-- With `scale_protein=True` and no protein subset, the transform-batch
contribution is the L1-renormalized raw protein value. -/
theorem proteinContrib_all_scale (opts : NormExprOpts) (g : GenOut)
    (bern : Mat) (hsc : opts.scaleProtein = true) :
    proteinContrib opts g bern .all =
      (proteinValRaw opts g bern).map l1Normalize := by
  unfold proteinContrib
  rw [hsc]
  simp [applyMask_all]

/-- Row-wise L1 normalization preserves the shape. -/
theorem isRect_map_l1Normalize (m : Mat) (r c : ℕ) (h : isRect m r c) :
    isRect (m.map l1Normalize) r c := by
  obtain ⟨hr, hc⟩ := h
  refine ⟨by simpa, ?_⟩
  intro row hrow
  simp only [List.mem_map] at hrow
  obtain ⟨row₀, hrow₀, rfl⟩ := hrow
  simpa [l1Normalize] using hc row₀ hrow₀

/-- Rows of a `zeros_like` tensor sum to zero. -/
theorem rowSum_matZerosLike (m : Mat) (i : ℕ) : rowSum (matZerosLike m) i = 0 := by
  rw [rowSum]
  rcases lt_or_ge i m.length with h | h
  · rw [matZerosLike, ewMap, getD_map_lt _ m i [] h]
    simp
  · rw [List.getD_eq_default _ _ (by simpa [matZerosLike, ewMap])]
    simp

theorem sum_map_one {α : Type} (l : List α) :
    (l.map (fun _ => (1 : ℝ))).sum = l.length := by
  induction l with
  | nil => simp
  | cons hd tl ih =>
    simp [ih]
    ring

/-- `sigmoid 0 = 1/2`. -/
theorem sigmoid_zero : sigmoid 0 = 1 / 2 := by
  rw [sigmoid, neg_zero, Real.exp_zero]
  norm_num

/-- **C4 counterexample.** The claim fails as stated: with `scale_protein=True`
and the strict protein subset `protein_list=["a"]` out of proteins
`["a", "b"]` (equal foreground rates, mixing logit `0`, no background, one
condition), the single returned protein value is `1/2`, so the returned row
sums to `1/2 ≠ 1` — the L1 normalization is applied over all proteins before
the `protein_list` subset is taken (`_totalvi.py:544-546`). -/
theorem c4_counterexample :
    ∃ out : NormExprOut,
      getNormalizedExpression [PyCat.cnum 0] ["c0"] ["g0"] ["a", "b"] 1 none
          none none (some ["a"]) [⟨[[0]], [[0, 0]], fun _ _ =>
            ⟨⟨[[0]], [[0]]⟩, ⟨[[0, 0]], [[2, 2]], [[0, 0]]⟩⟩,
            fun _ _ => [[0, 0]]⟩] (.pynum 0)
          ⟨false, 1, false, true, false⟩ true (some true) = .ok out ∧
      out.protein = .raw (.arr2 [[(1 : ℝ) / 2]]) ∧
      rowSum [[(1 : ℝ) / 2]] 0 ≠ 1 := by
  refine ⟨_, getNormalizedExpression_numpy_single [PyCat.cnum 0] ["c0"] ["g0"]
    ["a", "b"] 1 none none none (some ["a"])
    [⟨[[0]], [[0, 0]], fun _ _ => ⟨⟨[[0]], [[0]]⟩,
      ⟨[[0, 0]], [[2, 2]], [[0, 0]]⟩⟩, fun _ _ => [[0, 0]]⟩] (.pynum 0)
    [some 0] rfl ⟨false, 1, false, true, false⟩ rfl true, ?_,
    by rw [rowSum]; norm_num⟩
  show RetResult.raw (.arr2 (catDim0 _)) = _
  rw [show maskFromList ["a", "b"] (some ["a"]) = FeatMask.boolMask [true, false]
    from rfl]
  simp only [catDim0, mbProteinScale, proteinContrib, proteinValRaw,
    proteinMixing, ewMap, ewZip, matAdd, matMul, matZerosLike, applyMask,
    maskRow, l1Normalize, sigmoid_zero, List.map, List.foldl, List.zipWith,
    List.flatten, List.zip, List.zipWith, List.filter, List.sum_cons,
    List.sum_nil, List.append_nil]
  norm_num [max_def]

/-- **C4 (amended).** With `scale_protein=True` and *no* `protein_list`
subset, for every cell, every posterior-sample slice and every combination of
the remaining options, the protein output of `get_normalized_expression` sums
exactly to 1 across the proteins, provided each condition's
pre-normalization protein vector is nonnegative with L1 norm at least the
`1e-12` clamp of `torch.nn.functional.normalize`; with a strict
`protein_list` subset the returned values sum to the subset's share of the
normalized mass instead, because the normalization is applied before the
subset is taken. -/
theorem c4_scale_protein_sums_to_one (mapping : List PyCat)
    (obsNames geneNames proteinNames : List String) (nObs : ℕ)
    (indicesOpt randPick : Option (List ℕ)) (geneList : Option (List String))
    (post : List MBData) (tb : PyTB) (codes : List (Option ℕ))
    (hres : resolveTransformBatch mapping tb = .ok codes)
    (opts : NormExprOpts) (hn : opts.nSamples = 1)
    (hsc : opts.scaleProtein = true) (hcodes : codes ≠ [])
    (returnMean : Bool) (P : ℕ)
    (hshape : ∀ mb ∈ post, isRect mb.y mb.y.length P ∧ ∀ b s,
      isRect (mb.gen b s).py.mixing mb.y.length P ∧
      isRect (mb.gen b s).py.rateFore mb.y.length P ∧
      isRect (mb.gen b s).py.rateBack mb.y.length P ∧
      isRect (mb.bern b s) mb.y.length P)
    (hpos : ∀ mb ∈ post, ∀ b s, ∀ i < mb.y.length,
      ∀ x ∈ (proteinValRaw opts (mb.gen b s) (mb.bern b s)).getD i [], 0 ≤ x)
    (hge : ∀ mb ∈ post, ∀ b s, ∀ i < mb.y.length,
      1e-12 ≤ ((proteinValRaw opts (mb.gen b s) (mb.bern b s)).getD i []).sum) :
    ∃ out : NormExprOut,
      getNormalizedExpression mapping obsNames geneNames proteinNames nObs
          indicesOpt randPick geneList none post tb opts returnMean
          (some true) = .ok out ∧
      out.protein = .raw (.arr2 (catDim0 (post.map (fun mb =>
        mbProteinScale opts .all codes mb 0)))) ∧
      ∀ mb ∈ post, ∀ s, ∀ i < mb.y.length,
        rowSum (mbProteinScale opts .all codes mb s) i = 1 := by
  refine ⟨_, getNormalizedExpression_numpy_single mapping obsNames geneNames
    proteinNames nObs indicesOpt randPick geneList none post tb codes hres opts
    hn returnMean, rfl, ?_⟩
  intro mb hmb s i hi
  obtain ⟨hy, hg⟩ := hshape mb hmb
  have hcontrib : ∀ b : Option ℕ,
      proteinContrib opts (mb.gen b s) (mb.bern b s) FeatMask.all =
        (proteinValRaw opts (mb.gen b s) (mb.bern b s)).map l1Normalize :=
    fun b => proteinContrib_all_scale opts _ _ hsc
  have hzr : isRect (applyMask FeatMask.all (matZerosLike mb.y)) mb.y.length P := by
    rw [applyMask_all]
    exact isRect_matZerosLike _ _ _ hy
  have hvr : ∀ b : Option ℕ,
      isRect (proteinValRaw opts (mb.gen b s) (mb.bern b s)) mb.y.length P := by
    intro b
    obtain ⟨h1, h2, h3, h4⟩ := hg b s
    exact isRect_proteinValRaw _ _ _ _ _ h1 h2 h3 h4
  have hcr : ∀ b ∈ codes, isRect
      (proteinContrib opts (mb.gen b s) (mb.bern b s) FeatMask.all)
      mb.y.length P := by
    intro b _
    rw [hcontrib b]
    exact isRect_map_l1Normalize _ _ _ (hvr b)
  have hF : isRect (codes.foldl (fun acc b => matAdd acc
      (proteinContrib opts (mb.gen b s) (mb.bern b s) FeatMask.all))
      (applyMask FeatMask.all (matZerosLike mb.y))) mb.y.length P :=
    isRect_foldl_matAdd _ codes _ _ _ hzr hcr
  rw [mbProteinScale, rowSum_ewMap_div _ _ i (by rw [hF.1]; exact hi),
    rowSum_foldl_matAdd _ codes _ mb.y.length P i hzr hcr hi]
  rw [show rowSum (applyMask FeatMask.all (matZerosLike mb.y)) i = 0 by
    rw [applyMask_all]; exact rowSum_matZerosLike mb.y i]
  rw [zero_add]
  have hone : ∀ b ∈ codes,
      rowSum (proteinContrib opts (mb.gen b s) (mb.bern b s) FeatMask.all) i = 1 := by
    intro b _
    rw [hcontrib b, rowSum]
    have hlen : i < (proteinValRaw opts (mb.gen b s) (mb.bern b s)).length := by
      rw [(hvr b).1]; exact hi
    rw [getD_map_lt l1Normalize _ i [] hlen]
    apply sum_l1Normalize
    · intro x hx
      exact hpos mb hmb b s i hi x
        (by rwa [List.getD_eq_getElem _ _ hlen])
    · have h := hge mb hmb b s i hi
      rwa [List.getD_eq_getElem _ _ hlen] at h
  rw [List.map_congr_left hone, sum_map_one]
  exact div_self (by exact_mod_cast Nat.pos_iff_ne_zero.mp (List.length_pos.mpr hcodes))

/-- The concrete one-cell, two-protein minibatch used by the C4 witness:
mixing logit `0`, foreground rates `2`, no background. -/
def c4mb : MBData :=
  ⟨[[0]], [[0, 0]], fun _ _ => ⟨⟨[[0]], [[0]]⟩, ⟨[[0, 0]], [[2, 2]], [[0, 0]]⟩⟩,
    fun _ _ => [[0, 0]]⟩

/-- **C4 witness.** The amended statement at a concrete input: with no
protein subset the returned protein row sums to 1. -/
theorem c4_scale_protein_sums_to_one_witness :
    ∃ out : NormExprOut,
      getNormalizedExpression [PyCat.cnum 0] ["c0"] ["g0"] ["a", "b"] 1 none
          none none none [c4mb] (.pynum 0) ⟨false, 1, false, true, false⟩ true
          (some true) = .ok out ∧
      out.protein = .raw (.arr2 (catDim0 ([c4mb].map (fun mb =>
        mbProteinScale ⟨false, 1, false, true, false⟩ .all [some 0] mb 0)))) ∧
      ∀ mb ∈ [c4mb], ∀ s : ℕ, ∀ i < mb.y.length,
        rowSum (mbProteinScale ⟨false, 1, false, true, false⟩ .all [some 0]
          mb s) i = 1 := by
  refine c4_scale_protein_sums_to_one [PyCat.cnum 0] ["c0"] ["g0"] ["a", "b"]
    1 none none none [c4mb] (.pynum 0) [some 0] rfl
    ⟨false, 1, false, true, false⟩ rfl rfl (by simp) true 2 ?_ ?_ ?_
  · intro mb hmb
    simp only [List.mem_singleton] at hmb
    subst hmb
    exact ⟨⟨rfl, by simp [c4mb]⟩, fun b s =>
      ⟨⟨rfl, by simp [c4mb]⟩, ⟨rfl, by simp [c4mb]⟩, ⟨rfl, by simp [c4mb]⟩,
        ⟨rfl, by simp [c4mb]⟩⟩⟩
  · intro mb hmb b s i hi x hx
    simp only [List.mem_singleton] at hmb
    subst hmb
    simp only [c4mb, List.length_cons, List.length_nil] at hi
    have hi0 : i = 0 := by omega
    subst hi0
    simp only [c4mb, proteinValRaw, proteinMixing, ewMap, ewZip, matAdd,
      matMul, List.map, List.zipWith, sigmoid_zero, List.getD] at hx
    have hx2 : x = 2 * (1 - 1 / 2) := by simpa using hx
    rw [hx2]
    norm_num
  · intro mb hmb b s i hi
    simp only [List.mem_singleton] at hmb
    subst hmb
    simp only [c4mb, List.length_cons, List.length_nil] at hi
    have hi0 : i = 0 := by omega
    subst hi0
    simp only [c4mb, proteinValRaw, proteinMixing, ewMap, ewZip, matAdd,
      matMul, List.map, List.zipWith, sigmoid_zero, List.getD, List.sum_cons,
      List.sum_nil]
    norm_num

/-- The concrete one-cell, one-protein minibatch used by the C1 witness:
mixing logit `0`, foreground rate `2`, background rate `1`. -/
def c1mb : MBData :=
  ⟨[[0]], [[0]], fun _ _ => ⟨⟨[[0]], [[0]]⟩, ⟨[[0]], [[2]], [[1]]⟩⟩, fun _ _ => [[0]]⟩

/-- **C1 witness.** On the concrete minibatch the normalized protein value is
`2 * (1 - sigmoid 0) = 1`. -/
theorem c1_normalized_protein_value_witness :
    ∃ out : NormExprOut,
      getNormalizedExpression [PyCat.cnum 0] ["c0"] ["g0"] ["p0"] 1 none none
          none none [c1mb] (.pynum 0) ⟨false, 1, false, false, false⟩ true
          (some true) = .ok out ∧
      out.protein = .raw (.arr2 (catDim0 ([c1mb].map (fun mb =>
        mbProteinScale ⟨false, 1, false, false, false⟩ .all [some 0] mb 0)))) ∧
      entry (mbProteinScale ⟨false, 1, false, false, false⟩ .all [some 0]
        c1mb 0) 0 0 = 1 := by
  obtain ⟨out, h1, h2, h3⟩ := c1_normalized_protein_value [PyCat.cnum 0]
    ["c0"] ["g0"] ["p0"] 1 none none none [c1mb] (.pynum 0) [some 0] rfl
    ⟨false, 1, false, false, false⟩ rfl rfl true 1
    (by
      intro mb hmb
      simp only [List.mem_singleton] at hmb
      subst hmb
      exact ⟨⟨rfl, by simp [c1mb]⟩, fun b s =>
        ⟨⟨rfl, by simp [c1mb]⟩, ⟨rfl, by simp [c1mb]⟩, ⟨rfl, by simp [c1mb]⟩,
          ⟨rfl, by simp [c1mb]⟩⟩⟩)
  refine ⟨out, h1, h2, ?_⟩
  rw [h3 c1mb (by simp) 0 (by simp [c1mb]) 0 (by norm_num)]
  simp [c1mb, entry, sigmoid, Real.exp_zero]
  norm_num

theorem length_filter_zip_snd {α : Type} (r : List α) (bm : List Bool)
    (h : r.length = bm.length) :
    ((r.zip bm).filter (fun p => p.2)).length = bm.countP id := by
  induction r generalizing bm with
  | nil =>
    cases bm with
    | nil => simp
    | cons _ _ => simp at h
  | cons x xt ih =>
    cases bm with
    | nil => simp at h
    | cons bhd bt =>
      have ih2 := ih bt (by simpa using h)
      cases bhd <;>
        simpa [List.countP_cons, List.filter, List.zip] using ih2

/-- Length of a boolean-masked row: the number of `True` entries. -/
theorem maskRow_boolMask_length (r : List ℝ) (bm : List Bool)
    (h : r.length = bm.length) :
    (maskRow (.boolMask bm) r).length = bm.countP id := by
  simp only [maskRow, List.length_map]
  exact length_filter_zip_snd r bm h

theorem selectRows_length (m : Mat) (keep : List Bool) (h : m.length = keep.length) :
    (selectRows m keep).length = keep.countP id := by
  simp only [selectRows, List.length_map]
  exact length_filter_zip_snd m keep h

theorem selectRows_subset (m : Mat) (keep : List Bool) :
    ∀ row ∈ selectRows m keep, row ∈ m := by
  intro row hrow
  simp only [selectRows, List.mem_map, List.mem_filter] at hrow
  obtain ⟨⟨a, bb⟩, ⟨hmem, _⟩, rfl⟩ := hrow
  exact (List.of_mem_zip hmem).1

/-- `pro_exp[batch == b]` has as many rows as there are cells assigned to
batch `b`. -/
theorem batchRows_length (proExp : Mat) (batchOf : List ℕ) (b nTotal : ℕ)
    (hlen : batchOf.length = nTotal) (hplen : proExp.length = nTotal) :
    (batchRows proExp batchOf b).length = batchOf.countP (fun v => v = b) := by
  rw [batchRows, selectRows_length _ _ (by simp [hlen, hplen]), List.countP_map]
  rfl

/-- Every row of `pro_exp[batch == b]` is a row of `pro_exp`. -/
theorem batchRows_subset (proExp : Mat) (batchOf : List ℕ) (b : ℕ) :
    ∀ row ∈ batchRows proExp batchOf b, row ∈ proExp :=
  selectRows_subset _ _

/-- Both prior matrices read, at `(p, b)`, the per-batch value of batch `b`. -/
theorem getTotalviProteinPriors_entry (gmmFit : List ℝ → Option GMM2)
    (chooseCells : ℕ → List ℕ) (nCells : ℕ) (proExp : Mat) (batchOf : List ℕ)
    (batchMask : Option (ℕ → List Bool)) (nBatches p b : ℕ)
    (hp : p < (proExp.getD 0 []).length) (hb : b < nBatches) :
    entry (getTotalviProteinPriors gmmFit chooseCells nCells proExp batchOf
        batchMask nBatches).1 p b =
      (batchPriorOf gmmFit chooseCells nCells proExp batchOf batchMask b).1 ∧
    entry (getTotalviProteinPriors gmmFit chooseCells nCells proExp batchOf
        batchMask nBatches).2 p b =
      (batchPriorOf gmmFit chooseCells nCells proExp batchOf batchMask b).2 := by
  constructor <;>
  · simp only [getTotalviProteinPriors, entry, List.map_map]
    rw [getD_replicate_lt _ _ _ _ hp, getD_range_map _ _ _ _ hb]
    simp [Function.comp]

/-- The prior matrices always have shape `(proteins × batches)`. -/
theorem getTotalviProteinPriors_shape (gmmFit : List ℝ → Option GMM2)
    (chooseCells : ℕ → List ℕ) (nCells : ℕ) (proExp : Mat) (batchOf : List ℕ)
    (batchMask : Option (ℕ → List Bool)) (nBatches : ℕ) :
    isRect (getTotalviProteinPriors gmmFit chooseCells nCells proExp batchOf
      batchMask nBatches).1 (proExp.getD 0 []).length nBatches ∧
    isRect (getTotalviProteinPriors gmmFit chooseCells nCells proExp batchOf
      batchMask nBatches).2 (proExp.getD 0 []).length nBatches := by
  constructor <;>
  · refine ⟨by simp [getTotalviProteinPriors], ?_⟩
    intro row hrow
    simp only [getTotalviProteinPriors] at hrow
    rw [List.eq_of_mem_replicate hrow]
    simp

/-- **C2.** For every batch `b` with at least one assigned cell and at least
5 mask-usable proteins, the empirical prior estimator samples exactly
`n_cells` cells (the `np.random.choice` draw is with replacement: the index
list may repeat entries and is only constrained in length; the default is
`n_cells = 100`), fits a per-cell background component (`cellPrior`: the
lower-mean GMM component, or `(0, 0.05)` on non-convergence), and the
returned matrices carry in every protein row of column `b` the batch mean =
arithmetic mean of the per-cell background means, and the batch scale =
`sqrt(sum of per-cell background variances) / n_cells`; both matrices have
shape `(proteins × batches)` with each column constant across proteins. -/
theorem c2_prior_aggregation (gmmFit : List ℝ → Option GMM2)
    (chooseCells : ℕ → List ℕ) (nCells : ℕ) (proExp : Mat) (batchOf : List ℕ)
    (mask : ℕ → List Bool) (nBatches b nTotal nProteins : ℕ)
    (hlen : batchOf.length = nTotal) (hrect : isRect proExp nTotal nProteins)
    (hmaskl : (mask b).length = nProteins) (hb : b < nBatches)
    (hcnt : batchOf.countP (fun v => v = b) ≠ 0)
    (husable : 5 ≤ (mask b).countP id)
    (hchoose : (chooseCells b).length = nCells) :
    (sampledCellPriors gmmFit (chooseCells b)
      (applyMask (.boolMask (mask b)) (batchRows proExp batchOf b))).length =
      nCells ∧
    (∀ p < nProteins,
      entry (getTotalviProteinPriors gmmFit chooseCells nCells proExp batchOf
          (some mask) nBatches).1 p b =
        ((sampledCellPriors gmmFit (chooseCells b)
          (applyMask (.boolMask (mask b)) (batchRows proExp batchOf b))).map
          (fun q => q.1)).sum / (nCells : ℝ) ∧
      entry (getTotalviProteinPriors gmmFit chooseCells nCells proExp batchOf
          (some mask) nBatches).2 p b =
        Real.sqrt (((sampledCellPriors gmmFit (chooseCells b)
          (applyMask (.boolMask (mask b)) (batchRows proExp batchOf b))).map
          (fun q => q.2 ^ 2)).sum) / (nCells : ℝ)) ∧
    isRect (getTotalviProteinPriors gmmFit chooseCells nCells proExp batchOf
      (some mask) nBatches).1 nProteins nBatches ∧
    isRect (getTotalviProteinPriors gmmFit chooseCells nCells proExp batchOf
      (some mask) nBatches).2 nProteins nBatches ∧
    (∀ p < nProteins, ∀ q < nProteins, ∀ b' < nBatches,
      entry (getTotalviProteinPriors gmmFit chooseCells nCells proExp batchOf
          (some mask) nBatches).1 p b' =
        entry (getTotalviProteinPriors gmmFit chooseCells nCells proExp
          batchOf (some mask) nBatches).1 q b' ∧
      entry (getTotalviProteinPriors gmmFit chooseCells nCells proExp batchOf
          (some mask) nBatches).2 p b' =
        entry (getTotalviProteinPriors gmmFit chooseCells nCells proExp
          batchOf (some mask) nBatches).2 q b') ∧
    nCellsDefault = 100 := by
  have h0 : 0 < nTotal := by
    rcases Nat.eq_zero_or_pos nTotal with h | h
    · exfalso
      apply hcnt
      rw [List.length_eq_zero.mp (by omega : batchOf.length = 0)]
      rfl
    · exact h
  have hplen0 : (proExp.getD 0 []).length = nProteins :=
    row_getD_length proExp nTotal nProteins 0 hrect h0
  have hbpel : (batchRows proExp batchOf b).length =
      batchOf.countP (fun v => v = b) :=
    batchRows_length proExp batchOf b nTotal hlen hrect.1
  have hbpe2l : (applyMask (.boolMask (mask b)) (batchRows proExp batchOf b)).length =
      (batchRows proExp batchOf b).length := by
    simp [applyMask]
  have h0' : 0 < (applyMask (.boolMask (mask b)) (batchRows proExp batchOf b)).length := by
    rw [hbpe2l, hbpel]
    omega
  have hfirst : ((applyMask (.boolMask (mask b))
      (batchRows proExp batchOf b)).getD 0 []).length = (mask b).countP id := by
    rw [List.getD_eq_getElem _ _ h0']
    simp only [applyMask, List.getElem_map]
    refine maskRow_boolMask_length _ _ ?_
    rw [hrect.2 _ (batchRows_subset proExp batchOf b _ (List.getElem_mem _)),
      hmaskl]
  have hbp : batchPriorOf gmmFit chooseCells nCells proExp batchOf (some mask) b =
      batchAgg gmmFit (chooseCells b) nCells
        (applyMask (.boolMask (mask b)) (batchRows proExp batchOf b)) := by
    rw [batchPriorOf, if_neg hcnt]
    simp only
    rw [if_neg (by omega : ¬ ((applyMask (.boolMask (mask b))
        (batchRows proExp batchOf b)).getD 0 []).length < 5)]
    rw [if_neg (by omega : ¬ (applyMask (.boolMask (mask b))
        (batchRows proExp batchOf b)).length = 0)]
  have hprsl : (sampledCellPriors gmmFit (chooseCells b)
      (applyMask (.boolMask (mask b)) (batchRows proExp batchOf b))).length =
      nCells := by
    simp [sampledCellPriors, hchoose]
  have haggfst : (batchAgg gmmFit (chooseCells b) nCells
      (applyMask (.boolMask (mask b)) (batchRows proExp batchOf b))).1 =
      ((sampledCellPriors gmmFit (chooseCells b)
        (applyMask (.boolMask (mask b)) (batchRows proExp batchOf b))).map
        (fun q => q.1)).sum / (nCells : ℝ) := by
    simp only [batchAgg]
    rw [List.length_map, hprsl]
  have haggsnd : (batchAgg gmmFit (chooseCells b) nCells
      (applyMask (.boolMask (mask b)) (batchRows proExp batchOf b))).2 =
      Real.sqrt (((sampledCellPriors gmmFit (chooseCells b)
        (applyMask (.boolMask (mask b)) (batchRows proExp batchOf b))).map
        (fun q => q.2 ^ 2)).sum) / (nCells : ℝ) := by
    simp only [batchAgg, List.map_map]
    have hS : 0 ≤ ((sampledCellPriors gmmFit (chooseCells b)
        (applyMask (.boolMask (mask b)) (batchRows proExp batchOf b))).map
        ((fun s => s ^ 2) ∘ fun p => p.2)).sum := by
      apply List.sum_nonneg
      intro x hx
      obtain ⟨y, _, rfl⟩ := List.mem_map.mp hx
      exact sq_nonneg y.2
    rw [Real.sqrt_div hS, Real.sqrt_sq (by positivity)]
    rfl
  refine ⟨hprsl, ?_, ?_, ?_, ?_, rfl⟩
  · intro p hp
    have hent := getTotalviProteinPriors_entry gmmFit chooseCells nCells proExp
      batchOf (some mask) nBatches p b (by omega) hb
    rw [hent.1, hent.2, hbp, haggfst, haggsnd]
    exact ⟨rfl, rfl⟩
  · have := (getTotalviProteinPriors_shape gmmFit chooseCells nCells proExp
      batchOf (some mask) nBatches).1
    rwa [hplen0] at this
  · have := (getTotalviProteinPriors_shape gmmFit chooseCells nCells proExp
      batchOf (some mask) nBatches).2
    rwa [hplen0] at this
  · intro p hp q hq b' hb'
    have hep := getTotalviProteinPriors_entry gmmFit chooseCells nCells proExp
      batchOf (some mask) nBatches p b' (by omega) hb'
    have heq := getTotalviProteinPriors_entry gmmFit chooseCells nCells proExp
      batchOf (some mask) nBatches q b' (by omega) hb'
    rw [hep.1, hep.2, heq.1, heq.2]
    exact ⟨rfl, rfl⟩

/-- **C3.** Degenerate batches of the empirical prior estimator: a batch with
zero assigned cells yields prior `(0, 1)`; a batch with cells whose protein
mask leaves fewer than 5 usable proteins yields `(0.0, 0.05)` regardless of
the count values (the theorem holds for every `proExp`); and the estimator is
total — it returns well-formed `(proteins × batches)` mean and scale matrices
for every input, never raising. -/
theorem c3_degenerate_batches (gmmFit : List ℝ → Option GMM2)
    (chooseCells : ℕ → List ℕ) (nCells : ℕ) (proExp : Mat) (batchOf : List ℕ)
    (mask : ℕ → List Bool) (nBatches b nTotal nProteins : ℕ)
    (hlen : batchOf.length = nTotal) (hrect : isRect proExp nTotal nProteins)
    (hmaskl : (mask b).length = nProteins) (hb : b < nBatches)
    (hTot : 0 < nTotal) :
    (batchOf.countP (fun v => v = b) = 0 →
      batchPriorOf gmmFit chooseCells nCells proExp batchOf (some mask) b =
        (0, 1) ∧
      ∀ p < nProteins,
        entry (getTotalviProteinPriors gmmFit chooseCells nCells proExp
          batchOf (some mask) nBatches).1 p b = 0 ∧
        entry (getTotalviProteinPriors gmmFit chooseCells nCells proExp
          batchOf (some mask) nBatches).2 p b = 1) ∧
    (batchOf.countP (fun v => v = b) ≠ 0 → (mask b).countP id < 5 →
      batchPriorOf gmmFit chooseCells nCells proExp batchOf (some mask) b =
        (0.0, 0.05) ∧
      ∀ p < nProteins,
        entry (getTotalviProteinPriors gmmFit chooseCells nCells proExp
          batchOf (some mask) nBatches).1 p b = 0.0 ∧
        entry (getTotalviProteinPriors gmmFit chooseCells nCells proExp
          batchOf (some mask) nBatches).2 p b = 0.05) ∧
    isRect (getTotalviProteinPriors gmmFit chooseCells nCells proExp batchOf
      (some mask) nBatches).1 nProteins nBatches ∧
    isRect (getTotalviProteinPriors gmmFit chooseCells nCells proExp batchOf
      (some mask) nBatches).2 nProteins nBatches := by
  have hplen0 : (proExp.getD 0 []).length = nProteins :=
    row_getD_length proExp nTotal nProteins 0 hrect hTot
  refine ⟨?_, ?_, ?_, ?_⟩
  · intro hz
    have hbp : batchPriorOf gmmFit chooseCells nCells proExp batchOf
        (some mask) b = (0, 1) := by
      rw [batchPriorOf, if_pos hz]
    refine ⟨hbp, fun p hp => ?_⟩
    have hent := getTotalviProteinPriors_entry gmmFit chooseCells nCells proExp
      batchOf (some mask) nBatches p b (by omega) hb
    rw [hent.1, hent.2, hbp]
    exact ⟨rfl, rfl⟩
  · intro hcnt h5
    have hbpel : (batchRows proExp batchOf b).length =
        batchOf.countP (fun v => v = b) :=
      batchRows_length proExp batchOf b nTotal hlen hrect.1
    have hbpe2l : (applyMask (.boolMask (mask b))
        (batchRows proExp batchOf b)).length =
        (batchRows proExp batchOf b).length := by
      simp [applyMask]
    have h0' : 0 < (applyMask (.boolMask (mask b))
        (batchRows proExp batchOf b)).length := by
      rw [hbpe2l, hbpel]
      omega
    have hfirst : ((applyMask (.boolMask (mask b))
        (batchRows proExp batchOf b)).getD 0 []).length = (mask b).countP id := by
      rw [List.getD_eq_getElem _ _ h0']
      simp only [applyMask, List.getElem_map]
      refine maskRow_boolMask_length _ _ ?_
      rw [hrect.2 _ (batchRows_subset proExp batchOf b _ (List.getElem_mem _)),
        hmaskl]
    have hbp : batchPriorOf gmmFit chooseCells nCells proExp batchOf
        (some mask) b = (0.0, 0.05) := by
      rw [batchPriorOf, if_neg hcnt]
      simp only
      rw [if_pos (by omega : ((applyMask (.boolMask (mask b))
        (batchRows proExp batchOf b)).getD 0 []).length < 5)]
    refine ⟨hbp, fun p hp => ?_⟩
    have hent := getTotalviProteinPriors_entry gmmFit chooseCells nCells proExp
      batchOf (some mask) nBatches p b (by omega) hb
    rw [hent.1, hent.2, hbp]
    exact ⟨rfl, rfl⟩
  · have := (getTotalviProteinPriors_shape gmmFit chooseCells nCells proExp
      batchOf (some mask) nBatches).1
    rwa [hplen0] at this
  · have := (getTotalviProteinPriors_shape gmmFit chooseCells nCells proExp
      batchOf (some mask) nBatches).2
    rwa [hplen0] at this

/-- **C2 witness.** One batch of one cell and five unmasked proteins, two
sampled cells (`chooseCells` repeats index 0: sampling with replacement), a
never-converging GMM fit. -/
theorem c2_prior_aggregation_witness :
    (sampledCellPriors (fun _ => none) [0, 0]
      (applyMask (.boolMask [true, true, true, true, true])
        (batchRows [[0, 0, 0, 0, 0]] [0] 0))).length = 2 ∧
    (∀ p < 5,
      entry (getTotalviProteinPriors (fun _ => none) (fun _ => [0, 0]) 2
          [[0, 0, 0, 0, 0]] [0] (some (fun _ => [true, true, true, true, true]))
          1).1 p 0 =
        ((sampledCellPriors (fun _ => none) [0, 0]
          (applyMask (.boolMask [true, true, true, true, true])
            (batchRows [[0, 0, 0, 0, 0]] [0] 0))).map
          (fun q => q.1)).sum / ((2 : ℕ) : ℝ) ∧
      entry (getTotalviProteinPriors (fun _ => none) (fun _ => [0, 0]) 2
          [[0, 0, 0, 0, 0]] [0] (some (fun _ => [true, true, true, true, true]))
          1).2 p 0 =
        Real.sqrt (((sampledCellPriors (fun _ => none) [0, 0]
          (applyMask (.boolMask [true, true, true, true, true])
            (batchRows [[0, 0, 0, 0, 0]] [0] 0))).map
          (fun q => q.2 ^ 2)).sum) / ((2 : ℕ) : ℝ)) ∧
    isRect (getTotalviProteinPriors (fun _ => none) (fun _ => [0, 0]) 2
      [[0, 0, 0, 0, 0]] [0] (some (fun _ => [true, true, true, true, true]))
      1).1 5 1 ∧
    isRect (getTotalviProteinPriors (fun _ => none) (fun _ => [0, 0]) 2
      [[0, 0, 0, 0, 0]] [0] (some (fun _ => [true, true, true, true, true]))
      1).2 5 1 ∧
    (∀ p < 5, ∀ q < 5, ∀ b' < 1,
      entry (getTotalviProteinPriors (fun _ => none) (fun _ => [0, 0]) 2
          [[0, 0, 0, 0, 0]] [0] (some (fun _ => [true, true, true, true, true]))
          1).1 p b' =
        entry (getTotalviProteinPriors (fun _ => none) (fun _ => [0, 0]) 2
          [[0, 0, 0, 0, 0]] [0] (some (fun _ => [true, true, true, true, true]))
          1).1 q b' ∧
      entry (getTotalviProteinPriors (fun _ => none) (fun _ => [0, 0]) 2
          [[0, 0, 0, 0, 0]] [0] (some (fun _ => [true, true, true, true, true]))
          1).2 p b' =
        entry (getTotalviProteinPriors (fun _ => none) (fun _ => [0, 0]) 2
          [[0, 0, 0, 0, 0]] [0] (some (fun _ => [true, true, true, true, true]))
          1).2 q b') ∧
    nCellsDefault = 100 :=
  c2_prior_aggregation (fun _ => none) (fun _ => [0, 0]) 2 [[0, 0, 0, 0, 0]]
    [0] (fun _ => [true, true, true, true, true]) 1 0 1 5 rfl
    ⟨rfl, by simp⟩ rfl (by norm_num) (by decide) (by decide) rfl

/-- **C3 witness.** `batchOf = [1]` over two registered batches: batch 0 has
no assigned cells and yields `(0, 1)`; batch 1 has one cell but only two
mask-usable proteins and yields `(0.0, 0.05)`. -/
theorem c3_degenerate_batches_witness :
    batchPriorOf (fun _ => none) (fun _ => [0]) 100 [[0, 0, 0, 0, 0]] [1]
      (some (fun _ => [true, true, false, false, false])) 0 = (0, 1) ∧
    batchPriorOf (fun _ => none) (fun _ => [0]) 100 [[0, 0, 0, 0, 0]] [1]
      (some (fun _ => [true, true, false, false, false])) 1 = (0.0, 0.05) ∧
    entry (getTotalviProteinPriors (fun _ => none) (fun _ => [0]) 100
      [[0, 0, 0, 0, 0]] [1] (some (fun _ => [true, true, false, false, false]))
      2).1 0 0 = 0 ∧
    entry (getTotalviProteinPriors (fun _ => none) (fun _ => [0]) 100
      [[0, 0, 0, 0, 0]] [1] (some (fun _ => [true, true, false, false, false]))
      2).2 0 0 = 1 ∧
    entry (getTotalviProteinPriors (fun _ => none) (fun _ => [0]) 100
      [[0, 0, 0, 0, 0]] [1] (some (fun _ => [true, true, false, false, false]))
      2).1 0 1 = 0.0 ∧
    entry (getTotalviProteinPriors (fun _ => none) (fun _ => [0]) 100
      [[0, 0, 0, 0, 0]] [1] (some (fun _ => [true, true, false, false, false]))
      2).2 0 1 = 0.05 := by
  have h0 := (c3_degenerate_batches (fun _ => none) (fun _ => [0]) 100
    [[0, 0, 0, 0, 0]] [1] (fun _ => [true, true, false, false, false]) 2 0 1 5
    rfl ⟨rfl, by simp⟩ rfl (by norm_num) (by norm_num)).1 (by decide)
  have h1 := ((c3_degenerate_batches (fun _ => none) (fun _ => [0]) 100
    [[0, 0, 0, 0, 0]] [1] (fun _ => [true, true, false, false, false]) 2 1 1 5
    rfl ⟨rfl, by simp⟩ rfl (by norm_num) (by norm_num)).2.1 (by decide)
    (by decide))
  exact ⟨h0.1, h1.1, (h0.2 0 (by norm_num)).1, (h0.2 0 (by norm_num)).2,
    (h1.2 0 (by norm_num)).1, (h1.2 0 (by norm_num)).2⟩

/-- **C8.** The DE expression oracle `_expression_for_de` returns the
horizontal concatenation of normalized gene expression and normalized protein
expression with the protein prior pseudocount (signature default `0.5`, a
parameter distinct from the DE-mode `pseudocounts`, whose default is `1e-5`)
added to every protein entry, and the feature-name vector passed to the DE
engine is the gene names followed by the protein names suffixed with
`"_protein"`. -/
theorem c8_de_expression_oracle (mapping : List PyCat)
    (obsNames geneNames proteinNames : List String) (nObs : ℕ)
    (indicesOpt randPick : Option (List ℕ)) (post : List MBData) (tb : PyTB)
    (codes : List (Option ℕ))
    (hres : resolveTransformBatch mapping tb = .ok codes)
    (scaleProtein sampleProteinMixing includeProteinBackground : Bool) :
    expressionForDe mapping obsNames geneNames proteinNames nObs indicesOpt
        randPick post tb scaleProtein sampleProteinMixing
        includeProteinBackground proteinPriorCountDefault true true =
      .ok (List.zipWith
        (fun r p => r ++ p.map (fun v => v + proteinPriorCountDefault))
        (catDim0 (post.map (fun mb => mbGeneScale false .all codes mb 0)))
        (catDim0 (post.map (fun mb => mbProteinScale
          ⟨false, 1, sampleProteinMixing, scaleProtein,
            includeProteinBackground⟩ .all codes mb 0)))) ∧
    (∀ i,
      i < (catDim0 (post.map (fun mb => mbGeneScale false .all codes mb 0))).length →
      i < (catDim0 (post.map (fun mb => mbProteinScale
        ⟨false, 1, sampleProteinMixing, scaleProtein,
          includeProteinBackground⟩ .all codes mb 0))).length →
      (List.zipWith
        (fun r p => r ++ p.map (fun v => v + proteinPriorCountDefault))
        (catDim0 (post.map (fun mb => mbGeneScale false .all codes mb 0)))
        (catDim0 (post.map (fun mb => mbProteinScale
          ⟨false, 1, sampleProteinMixing, scaleProtein,
            includeProteinBackground⟩ .all codes mb 0)))).getD i [] =
        (catDim0 (post.map (fun mb =>
          mbGeneScale false .all codes mb 0))).getD i [] ++
        ((catDim0 (post.map (fun mb => mbProteinScale
          ⟨false, 1, sampleProteinMixing, scaleProtein,
            includeProteinBackground⟩ .all codes mb 0))).getD i []).map
          (fun v => v + proteinPriorCountDefault)) ∧
    deColNames geneNames proteinNames true true =
      geneNames ++ proteinNames.map (fun s => s ++ "_protein") ∧
    proteinPriorCountDefault = 0.5 ∧
    proteinPriorCountDefault ≠ dePseudocountsDefault := by
  refine ⟨?_, ?_, by simp [deColNames], by norm_num [proteinPriorCountDefault],
    by norm_num [proteinPriorCountDefault, dePseudocountsDefault]⟩
  · rw [expressionForDe]
    rw [show (if (true : Bool) = true then (none : Option (List String))
      else some []) = none from rfl]
    rw [getNormalizedExpression_numpy_single mapping obsNames geneNames
        proteinNames nObs indicesOpt randPick none none post tb codes hres
        ⟨false, 1, sampleProteinMixing, scaleProtein,
          includeProteinBackground⟩ rfl true]
    rfl
  · intro i hiG hiP
    have hz : i < (List.zipWith
        (fun r p => r ++ p.map (fun v => v + proteinPriorCountDefault))
        (catDim0 (post.map (fun mb => mbGeneScale false .all codes mb 0)))
        (catDim0 (post.map (fun mb => mbProteinScale
          ⟨false, 1, sampleProteinMixing, scaleProtein,
            includeProteinBackground⟩ .all codes mb 0)))).length := by
      rw [List.length_zipWith]
      omega
    rw [List.getD_eq_getElem _ _ hz, List.getElem_zipWith,
      List.getD_eq_getElem _ _ hiG, List.getD_eq_getElem _ _ hiP]

/-- The concrete minibatch used by the C8 witness. -/
def c8mb : MBData :=
  ⟨[[1]], [[1]], fun _ _ => ⟨⟨[[3]], [[4]]⟩, ⟨[[0]], [[2]], [[1]]⟩⟩,
    fun _ _ => [[0]]⟩

/-- **C8 witness.** The oracle at a concrete one-cell minibatch. -/
theorem c8_de_expression_oracle_witness :
    expressionForDe [PyCat.cnum 0] ["c0"] ["g0"] ["p0"] 1 none none [c8mb]
        (.pynum 0) false false false proteinPriorCountDefault true true =
      .ok (List.zipWith
        (fun r p => r ++ p.map (fun v => v + proteinPriorCountDefault))
        (catDim0 ([c8mb].map (fun mb => mbGeneScale false .all [some 0] mb 0)))
        (catDim0 ([c8mb].map (fun mb => mbProteinScale
          ⟨false, 1, false, false, false⟩ .all [some 0] mb 0)))) ∧
    deColNames ["g0"] ["p0"] true true =
      ["g0"] ++ ["p0"].map (fun s => s ++ "_protein") ∧
    proteinPriorCountDefault = 0.5 ∧
    proteinPriorCountDefault ≠ dePseudocountsDefault := by
  have h := c8_de_expression_oracle [PyCat.cnum 0] ["c0"] ["g0"] ["p0"] 1
    none none [c8mb] (.pynum 0) [some 0] rfl false false false
  exact ⟨h.1, h.2.2.1, h.2.2.2.1, h.2.2.2.2⟩

/-- The number of features a mask keeps, out of `c`. -/
def maskLen (mask : FeatMask) (c : ℕ) : ℕ :=
  match mask with
  | .all => c
  | .boolMask bm => bm.countP id

/-- The mask applies cleanly to rows of length `c`. -/
def maskFits (mask : FeatMask) (c : ℕ) : Prop :=
  match mask with
  | .all => True
  | .boolMask bm => bm.length = c

theorem length_maskRow (mask : FeatMask) (c : ℕ) (r : List ℝ)
    (hfit : maskFits mask c) (hr : r.length = c) :
    (maskRow mask r).length = maskLen mask c := by
  cases mask with
  | all => simpa [maskRow, maskLen]
  | boolMask bm =>
    simp only [maskLen]
    exact maskRow_boolMask_length r bm (by rw [hr]; exact hfit.symm)

theorem maskFits_maskFromList (names : List String) (fl : Option (List String)) :
    maskFits (maskFromList names fl) names.length := by
  cases fl <;> simp [maskFromList, maskFits]

theorem isRect_applyMask (mask : FeatMask) (m : Mat) (r c : ℕ)
    (h : isRect m r c) (hfit : maskFits mask c) :
    isRect (applyMask mask m) r (maskLen mask c) := by
  obtain ⟨hr, hc⟩ := h
  refine ⟨by simpa [applyMask], ?_⟩
  intro row hrow
  simp only [applyMask, List.mem_map] at hrow
  obtain ⟨row₀, h₀, rfl⟩ := hrow
  exact length_maskRow mask c row₀ hfit (hc _ h₀)

/-- `np.transpose(x, (1, 2, 0))` turns an `(a, b, c)` tensor into a
`(b, c, a)` tensor. -/
theorem isRect3_transpose120 (t : T3) (a b c : ℕ) (h : isRect3 t a b c)
    (ha : a ≠ 0) : isRect3 (transpose120 t) b c a := by
  obtain ⟨hl, hm⟩ := h
  have hlt : 0 < t.length := by omega
  have ht0 : t.getD 0 [] = t[0] := List.getD_eq_getElem _ _ hlt
  have h0 : isRect t[0] b c := hm _ (List.getElem_mem _)
  constructor
  · simp only [transpose120, List.length_map, List.length_range, ht0]
    exact h0.1
  · intro m hmem
    simp only [transpose120, List.mem_map, List.mem_range, ht0] at hmem
    obtain ⟨i, hi, rfl⟩ := hmem
    rw [h0.1] at hi
    have hrow : (t[0].getD i []).length = c := by
      rw [List.getD_eq_getElem _ _ (by rw [h0.1]; exact hi)]
      exact h0.2 _ (List.getElem_mem _)
    constructor
    · simp only [List.length_map, List.length_range]
      exact hrow
    · intro row hrow'
      simp only [List.mem_map, List.mem_range] at hrow'
      obtain ⟨j, hj, rfl⟩ := hrow'
      simp [hl]

/-- Concatenating 3-D pieces along axis 0 sums the leading dimensions. -/
theorem isRect3_flatten (l : List T3) (b c : ℕ)
    (h : ∀ t ∈ l, ∀ m ∈ t, isRect m b c) :
    isRect3 l.flatten (l.map List.length).sum b c := by
  constructor
  · simp [List.length_flatten]
  · intro m hm
    rw [List.mem_flatten] at hm
    obtain ⟨t, ht, hmt⟩ := hm
    exact h t ht m hmt

/-- The matcher used by `concatArr0`. -/
theorem concatArr0_a3 (l : List Arr)
    (hall : l.all (fun a => match a with | .a3 _ => true | .a2 _ => false) = true) :
    concatArr0 l =
      .a3 ((l.map (fun a => match a with | .a3 t => t | .a2 _ => [])).flatten) := by
  rw [concatArr0, if_pos hall]

/-- For `n_samples > 1`, processing and concatenating per-minibatch 3-D
samples yields one 3-D array of shape (total cells, masked features,
n_samples) — the sample axis moved last. -/
theorem concat_processed_a3 (nSamples : ℕ) (h2 : 1 < nSamples)
    (mask : FeatMask) (post : List PPMB) (sel : PPMB → Arr) (cnt : PPMB → ℕ)
    (feats : ℕ) (hfit : maskFits mask feats)
    (hsh : ∀ mb ∈ post, ∃ t, sel mb = .a3 t ∧
      isRect3 t nSamples (cnt mb) feats) :
    ∃ t, concatArr0 (post.map (fun mb => ppProcess nSamples mask (sel mb))) =
        .a3 t ∧
      isRect3 t ((post.map cnt).sum) (maskLen mask feats) nSamples := by
  have hproc : ∀ mb ∈ post, ∃ t, ppProcess nSamples mask (sel mb) = .a3 t ∧
      isRect3 t (cnt mb) (maskLen mask feats) nSamples := by
    intro mb hmb
    obtain ⟨t, hsel, hrect⟩ := hsh mb hmb
    refine ⟨transpose120 (t.map (applyMask mask)), ?_, ?_⟩
    · rw [ppProcess, hsel]
      simp [maskArr, h2]
    · refine isRect3_transpose120 _ nSamples (cnt mb) (maskLen mask feats)
        ⟨by simp [hrect.1], ?_⟩ (by omega)
      intro m hm
      obtain ⟨m₀, hm₀, rfl⟩ := List.mem_map.mp hm
      exact isRect_applyMask mask m₀ _ _ (hrect.2 m₀ hm₀) hfit
  have hall : (post.map (fun mb => ppProcess nSamples mask (sel mb))).all
      (fun a => match a with | .a3 _ => true | .a2 _ => false) = true := by
    rw [List.all_eq_true]
    intro a ha
    obtain ⟨mb, hmb, rfl⟩ := List.mem_map.mp ha
    obtain ⟨t, hpt, _⟩ := hproc mb hmb
    rw [hpt]
  refine ⟨_, concatArr0_a3 _ hall, ?_, ?_⟩
  · rw [List.length_flatten, List.map_map, List.map_map]
    rw [List.map_congr_left (l := post) (fun mb hmb => by
      obtain ⟨t, hpt, hrt⟩ := hproc mb hmb
      show (List.length ∘ (fun a => match a with | Arr.a3 t => t | Arr.a2 _ => ([] : T3)) ∘
        (fun mb => ppProcess nSamples mask (sel mb))) mb = cnt mb
      simp [Function.comp, hpt, hrt.1])]
  · intro m hm
    simp only [List.map_map, List.mem_flatten] at hm
    obtain ⟨tt, htt, hmtt⟩ := hm
    obtain ⟨mb, hmb, rfl⟩ := List.mem_map.mp htt
    obtain ⟨t, hpt, hrt⟩ := hproc mb hmb
    refine hrt.2 _ ?_
    simpa [Function.comp, hpt] using hmtt

/-- For `n_samples = 1`, processing and concatenating per-minibatch 2-D
samples yields one 2-D array of shape (total cells, masked features). -/
theorem concat_processed_a2 (mask : FeatMask) (post : List PPMB)
    (hpost : post ≠ []) (sel : PPMB → Arr) (cnt : PPMB → ℕ) (feats : ℕ)
    (hfit : maskFits mask feats)
    (hsh : ∀ mb ∈ post, ∃ m, sel mb = .a2 m ∧ isRect m (cnt mb) feats) :
    ∃ m, concatArr0 (post.map (fun mb => ppProcess 1 mask (sel mb))) = .a2 m ∧
      isRect m ((post.map cnt).sum) (maskLen mask feats) := by
  have hproc : ∀ mb ∈ post, ∃ m, ppProcess 1 mask (sel mb) = .a2 m ∧
      isRect m (cnt mb) (maskLen mask feats) := by
    intro mb hmb
    obtain ⟨m, hsel, hrect⟩ := hsh mb hmb
    refine ⟨applyMask mask m, ?_, isRect_applyMask mask m _ _ hrect hfit⟩
    rw [ppProcess, hsel]
    simp [maskArr]
  have hnall : ¬ ((post.map (fun mb => ppProcess 1 mask (sel mb))).all
      (fun a => match a with | .a3 _ => true | .a2 _ => false) = true) := by
    intro hall
    rw [List.all_eq_true] at hall
    obtain ⟨mb0, hmb0⟩ := List.exists_mem_of_ne_nil post hpost
    obtain ⟨m, hpt, _⟩ := hproc mb0 hmb0
    have := hall _ (List.mem_map.mpr ⟨mb0, hmb0, rfl⟩)
    rw [hpt] at this
    simp at this
  refine ⟨_, by rw [concatArr0, if_neg hnall], ?_, ?_⟩
  · rw [List.length_flatten, List.map_map, List.map_map]
    rw [List.map_congr_left (l := post) (fun mb hmb => by
      obtain ⟨m, hpt, hrt⟩ := hproc mb hmb
      show (List.length ∘ (fun a => match a with | Arr.a2 m => m | Arr.a3 _ => ([] : Mat)) ∘
        (fun mb => ppProcess 1 mask (sel mb))) mb = cnt mb
      simp [Function.comp, hpt, hrt.1])]
  · intro row hrow
    simp only [List.map_map, List.mem_flatten] at hrow
    obtain ⟨mm, hmm, hrmm⟩ := hrow
    obtain ⟨mb, hmb, rfl⟩ := List.mem_map.mp hmm
    obtain ⟨m, hpt, hrt⟩ := hproc mb hmb
    refine hrt.2 _ ?_
    simpa [Function.comp, hpt] using hrmm

/-- **C10.** `posterior_predictive_sample` always returns a mapping of two
arrays rather than a single array: keyed `"rna"` and `"protein"` for AnnData
input, and by the registered `rna_layer`/`protein_layer` modality names for
MuData input; when `n_samples > 1` each array is 3-D of shape
(cells, features, n_samples) — the sample axis moved last — and 2-D of shape
(cells, features) otherwise. -/
theorem c10_posterior_predictive_output (geneNames proteinNames : List String)
    (geneList proteinList : Option (List String)) (isAnnData : Bool)
    (rnaLayer proteinLayer : String) (nSamples : ℕ) (post : List PPMB)
    (cnt : PPMB → ℕ)
    (hsh3 : 1 < nSamples → ∀ mb ∈ post,
      (∃ t, mb.rna = .a3 t ∧ isRect3 t nSamples (cnt mb) geneNames.length) ∧
      (∃ t, mb.protein = .a3 t ∧
        isRect3 t nSamples (cnt mb) proteinNames.length))
    (hsh2 : nSamples = 1 → post ≠ [] ∧ ∀ mb ∈ post,
      (∃ m, mb.rna = .a2 m ∧ isRect m (cnt mb) geneNames.length) ∧
      (∃ m, mb.protein = .a2 m ∧ isRect m (cnt mb) proteinNames.length)) :
    ∃ rnaArr proArr : Arr,
      posteriorPredictiveSample "nb" geneNames proteinNames geneList
        proteinList isAnnData rnaLayer proteinLayer nSamples post =
        .ok [((if isAnnData then "rna" else rnaLayer), rnaArr),
             ((if isAnnData then "protein" else proteinLayer), proArr)] ∧
      (1 < nSamples →
        (∃ t, rnaArr = .a3 t ∧ isRect3 t ((post.map cnt).sum)
          (maskLen (maskFromList geneNames geneList) geneNames.length)
          nSamples) ∧
        (∃ t, proArr = .a3 t ∧ isRect3 t ((post.map cnt).sum)
          (maskLen (maskFromList proteinNames proteinList)
            proteinNames.length) nSamples)) ∧
      (nSamples = 1 →
        (∃ m, rnaArr = .a2 m ∧ isRect m ((post.map cnt).sum)
          (maskLen (maskFromList geneNames geneList) geneNames.length)) ∧
        (∃ m, proArr = .a2 m ∧ isRect m ((post.map cnt).sum)
          (maskLen (maskFromList proteinNames proteinList)
            proteinNames.length))) := by
  refine ⟨concatArr0 (post.map (fun mb => ppProcess nSamples
      (maskFromList geneNames geneList) mb.rna)),
    concatArr0 (post.map (fun mb => ppProcess nSamples
      (maskFromList proteinNames proteinList) mb.protein)), ?_, ?_, ?_⟩
  · by_cases hA : isAnnData <;>
      simp [posteriorPredictiveSample, hA]
  · intro h2
    exact ⟨concat_processed_a3 nSamples h2 _ post (fun mb => mb.rna) cnt
        geneNames.length (maskFits_maskFromList _ _)
        (fun mb hmb => ((hsh3 h2) mb hmb).1),
      concat_processed_a3 nSamples h2 _ post (fun mb => mb.protein) cnt
        proteinNames.length (maskFits_maskFromList _ _)
        (fun mb hmb => ((hsh3 h2) mb hmb).2)⟩
  · intro h1
    obtain ⟨hpost, hsh⟩ := hsh2 h1
    subst h1
    exact ⟨concat_processed_a2 _ post hpost (fun mb => mb.rna) cnt
        geneNames.length (maskFits_maskFromList _ _)
        (fun mb hmb => (hsh mb hmb).1),
      concat_processed_a2 _ post hpost (fun mb => mb.protein) cnt
        proteinNames.length (maskFits_maskFromList _ _)
        (fun mb hmb => (hsh mb hmb).2)⟩

/-- The concrete minibatch used by the C10 witness: one cell, one gene, one
protein, two posterior samples (sample-major module output). -/
def c10mb : PPMB := ⟨.a3 [[[1]], [[2]]], .a3 [[[3]], [[4]]]⟩

/-- **C10 witness.** At `n_samples = 2` on an AnnData input, the mapping is
keyed `"rna"`/`"protein"` and each array is (1 cell, 1 feature, 2 samples). -/
theorem c10_posterior_predictive_output_witness :
    ∃ rnaArr proArr : Arr,
      posteriorPredictiveSample "nb" ["g0"] ["p0"] none none true "rna_m"
        "pro_m" 2 [c10mb] = .ok [("rna", rnaArr), ("protein", proArr)] ∧
      (∃ t, rnaArr = .a3 t ∧ isRect3 t 1 1 2) ∧
      (∃ t, proArr = .a3 t ∧ isRect3 t 1 1 2) := by
  obtain ⟨r, p, h1, h2, _⟩ := c10_posterior_predictive_output ["g0"] ["p0"]
    none none true "rna_m" "pro_m" 2 [c10mb] (fun _ => 1)
    (by
      intro _ mb hmb
      simp only [List.mem_singleton] at hmb
      subst hmb
      refine ⟨⟨_, rfl, rfl, ?_⟩, ⟨_, rfl, rfl, ?_⟩⟩ <;>
        · intro m hm
          simp only [List.mem_cons, List.not_mem_nil, or_false] at hm
          rcases hm with rfl | rfl <;> exact ⟨rfl, by simp⟩)
    (fun h => absurd h (by norm_num))
  refine ⟨r, p, by simpa using h1, ?_, ?_⟩
  · have h := (h2 (by norm_num)).1
    simpa [maskLen, maskFromList] using h
  · have h := (h2 (by norm_num)).2
    simpa [maskLen, maskFromList] using h

/-- **C6 witness.** A concrete call with `n_samples = 2`,
`return_mean = False`, `return_numpy = False`. -/
theorem c6_multisample_forces_raw_array_witness :
    (∃ out : NormExprOut,
      getNormalizedExpression [PyCat.cnum 0] ["c0"] ["g0"] ["p0"] 1 none none
          none none [] (.pynum 0) ⟨false, 2, false, false, false⟩ false
          (some false) = .ok out ∧
      (∃ t, out.gene = .raw (.arr3 t)) ∧ (∃ t, out.protein = .raw (.arr3 t)) ∧
      ((some false : Option Bool) = some false → out.warned = true)) ∧
    (∃ out : FgProbOut,
      getProteinForegroundProbability [PyCat.cnum 0] ["c0"] ["p0"] 1 none
          none [] (.pynum 0) 2 false (some false) = .ok out ∧
      (∃ t, out.result = .raw (.arr3 t)) ∧
      ((some false : Option Bool) = some false → out.warned = true)) :=
  c6_multisample_forces_raw_array [PyCat.cnum 0] ["c0"] ["g0"] ["p0"] 1 none
    none none none [] (.pynum 0) [some 0] rfl ⟨false, 2, false, false, false⟩
    (by norm_num) 2 (by norm_num) (some false)

end

end TotalVI
